import Mathlib

/-!
# Verification of the repository's two dynamic storage allocators

This file embeds the two allocator sources of the repository,
`mm-explicit list(82:100)/mm.c` (called *variant A* below: one explicit
free list) and `mm-segregated list(97:100)/mm.c` (*variant B*: 24
segregated free lists with footer elision), and settles the claims of
the specification against them.

Two models are developed, both translated from the C sources:

* a byte-granular machine model (`St`, namespaces `VA` and `VB`): the
  heap is a list of bytes, `mem_sbrk` grows it up to a capacity limit,
  and every C function of the sources is translated statement by
  statement (header/footer words are 32-bit little-endian values, all
  loops carry explicit fuel because a corrupted cyclic free list would
  not terminate in C either);
* a block-level model (`Blk`/`BlkB`, used for the adjacency invariant):
  the heap between the prologue and epilogue sentinels is the list of
  its blocks, and `free`/`place`/`extend`/`coalesce` are the same four
  case analyses the sources perform, with variant B additionally
  tracking bit 1 of every header (the predecessor-allocated bit) and
  of the epilogue.

Neither source compiles with `NEXT_FIT` defined (`#define NEXT_FITx`),
so the first-fit code paths are the ones embedded.
-/

set_option maxRecDepth 40000
set_option maxHeartbeats 1000000

/-- Word size in bytes (the C macro `WSIZE`). -/
def WSIZE : Nat := 4

/-- Doubleword size in bytes (the C macro `DSIZE`). -/
def DSIZE : Nat := 8

/-- The number of segregated lists in variant B (the C macro `LIST_NUM`). -/
def LIST_NUM : Nat := 24

/-- The value of `(void *)-1`, the failure return of `mem_sbrk`, read as an
unsigned 64-bit pointer. -/
def MINUS1 : Nat := 2 ^ 64 - 1

/-- The heap contents: the byte stored at every address.  Addresses at or
beyond the current break read `0`, matching `memlib`'s zero-filled fresh
memory, because nothing in range is ever written before it is handed out. -/
def Mem : Type := Nat → Nat

/-- Allocator state.  `mem` holds the heap bytes, `len` is the current
break (the address of the first byte beyond the heap).  The process starts
with an 8-byte pad so that no valid pointer is `0` (`NULL`) and the region
handed out by the substrate is 8-byte aligned, as `memlib` guarantees.
`heap_listp` and `free_listp` are the two static globals of `mm.c`,
both `0` before `mm_init` runs.  `limit` is the substrate's capacity:
`mem_sbrk` fails once the break would exceed it. -/
structure St where
  mem : Mem
  len : Nat
  heap_listp : Nat
  free_listp : Nat
  limit : Nat

/-- The pristine process state: all-zero memory, break at 8, globals zero. -/
def initialSt (limit : Nat) : St :=
  { mem := fun _ => 0, len := 8, heap_listp := 0, free_listp := 0, limit := limit }

/-- Read one byte. -/
def byteAt (m : Mem) (a : Nat) : Nat := m a

/-- Write one byte (reduced mod 256, as memory holds bytes). -/
def setByte (m : Mem) (a v : Nat) : Mem := fun x => if x = a then v % 256 else m x

/-- `GET(p)`: read a 32-bit little-endian word at byte address `p`. -/
def get32 (m : Mem) (p : Nat) : Nat :=
  byteAt m p + 2 ^ 8 * byteAt m (p + 1) + 2 ^ 16 * byteAt m (p + 2) +
    2 ^ 24 * byteAt m (p + 3)

/-- `PUT(p, val)`: store a 32-bit little-endian word at byte address `p`. -/
def put32 (m : Mem) (p v : Nat) : Mem :=
  setByte (setByte (setByte (setByte m p v) (p + 1) (v / 2 ^ 8)) (p + 2) (v / 2 ^ 16))
    (p + 3) (v / 2 ^ 24)

/-- `PACK(size, alloc)`: or the size and the flag bits together. -/
def PACK (size alloc : Nat) : Nat := size ||| alloc

/-- `GET_SIZE(p) = GET(p) & ~0x7`: for the 32-bit values stored here this is
the value with its low three bits cleared. -/
def GET_SIZE (m : Mem) (p : Nat) : Nat := get32 m p / 8 * 8

/-- `GET_ALLOC(p) = GET(p) & 0x1`. -/
def GET_ALLOC (m : Mem) (p : Nat) : Nat := get32 m p % 2

/-- `HDRP(bp)`: a block's header sits one word below its payload pointer. -/
def HDRP (bp : Nat) : Nat := bp - WSIZE

/-- `FTRP(bp) = bp + GET_SIZE(HDRP(bp)) - DSIZE`. -/
def FTRP (m : Mem) (bp : Nat) : Nat := bp + GET_SIZE m (HDRP bp) - DSIZE

/-- `NEXT_BLKP(bp) = bp + GET_SIZE(bp - WSIZE)`. -/
def NEXT_BLKP (m : Mem) (bp : Nat) : Nat := bp + GET_SIZE m (bp - WSIZE)

/-- `PREV_BLKP(bp) = bp - GET_SIZE(bp - DSIZE)`. -/
def PREV_BLKP (m : Mem) (bp : Nat) : Nat := bp - GET_SIZE m (bp - DSIZE)

/-- `mem_sbrk(incr)`: grow the heap by `incr` (zero-filled) bytes and return
the old break, or return `(void *)-1` when the capacity limit would be
exceeded. -/
def memSbrk (st : St) (incr : Nat) : St × Nat :=
  if st.len + incr ≤ st.limit then ({ st with len := st.len + incr }, st.len)
  else (st, MINUS1)

/-- `memcpy(dst, src, n)` on the heap bytes, ascending as the regions used
here do not overlap. -/
def memcpy (m : Mem) (dst src n : Nat) : Mem :=
  match n with
  | 0 => m
  | k + 1 => memcpy (setByte m dst (byteAt m src)) (dst + 1) (src + 1) k

/-- `memset(dst, v, n)` on the heap bytes. -/
def memset (m : Mem) (dst v n : Nat) : Mem :=
  match n with
  | 0 => m
  | k + 1 => memset (setByte m dst v) (dst + 1) v k

/-- A caller storing bytes into a payload it owns (the spec gives the caller
exclusive ownership of a payload between `alloc` and `free`). -/
def storeBytes (m : Mem) (a : Nat) : List Nat → Mem
  | [] => m
  | b :: bs => storeBytes (setByte m a b) (a + 1) bs

/-- The number of bytes `mm_realloc` copies, from
`oldsize = GET_SIZE(HDRP(ptr)); if (size < oldsize) oldsize = size;`
(identical in both sources). -/
def reallocCopyLen (oldsize size : Nat) : Nat :=
  if size < oldsize then size else oldsize

/-- `freelist_delete(bp)` with the head word at `listAddr`: the four
*independent* `if` statements of both sources, each one re-reading
`GET(bp)` and `GET(bp + WSIZE)` from the current memory, exactly as the
C executes.  `hl` is `heap_listp` (offsets are relative to it). -/
def deleteIfs (m : Mem) (hl bp listAddr : Nat) : Mem :=
  let m1 := if get32 m bp = 0 ∧ get32 m (bp + WSIZE) = 0 then
      put32 m listAddr 0
    else m
  let m2 := if get32 m1 bp = 0 ∧ get32 m1 (bp + WSIZE) ≠ 0 then
      put32 m1 (get32 m1 (bp + WSIZE) + hl) 0
    else m1
  let m3 := if get32 m2 bp ≠ 0 ∧ get32 m2 (bp + WSIZE) = 0 then
      let m' := put32 m2 (get32 m2 bp + hl + WSIZE) 0
      put32 m' listAddr (get32 m' bp)
    else m2
  if get32 m3 bp ≠ 0 ∧ get32 m3 (bp + WSIZE) ≠ 0 then
    let m' := put32 m3 (get32 m3 bp + hl + WSIZE) (get32 m3 (bp + WSIZE))
    put32 m' (get32 m' (bp + WSIZE) + hl) (get32 m' bp)
  else m3

/-- Deletion as the specification words it (§4.7): the four sub-cases as
mutually exclusive branches over the values of `bp.next_off` and
`bp.prev_off` read once. -/
def deleteElse (m : Mem) (hl bp listAddr : Nat) : Mem :=
  let n := get32 m bp
  let p := get32 m (bp + WSIZE)
  if n = 0 ∧ p = 0 then put32 m listAddr 0
  else if n = 0 ∧ p ≠ 0 then put32 m (p + hl) 0
  else if n ≠ 0 ∧ p = 0 then put32 (put32 m (n + hl + WSIZE) 0) listAddr n
  else put32 (put32 m (n + hl + WSIZE) p) (p + hl) n

/-- The free-list walk shared by variant A's `find_fit` and variant B's
`find_block`: return the first block of the list whose size fits, stop at a
zero `next_off`.  The fuel bounds the walk; the C loop would not terminate
on a cyclic list. -/
def findAux : Nat → Mem → Nat → Nat → Nat → Option Nat
  | 0, _, _, _, _ => none
  | fuel + 1, m, hl, bp, asize =>
    if GET_SIZE m (HDRP bp) ≥ asize then some bp
    else if get32 m bp = 0 then none
    else findAux fuel m hl (get32 m bp + hl) asize

/-- `find_block(list, asize)` (variant B; variant A's `find_fit` is the same
code with `list = free_listp`): empty head means no fit, otherwise walk. -/
def find_block (fuel : Nat) (m : Mem) (hl listAddr asize : Nat) : Option Nat :=
  if get32 m listAddr = 0 then none
  else findAux fuel m hl (get32 m listAddr + hl) asize

/-- Executable alignment audit of one free-list chain: every block pointer
reached from `bp` by following `next_off` links until a zero link is
8-byte aligned (false when the fuel runs out, so a `true` result also
certifies that the chain terminates). -/
def chainAligned : Nat → Mem → Nat → Nat → Bool
  | 0, _, _, _ => false
  | fuel + 1, m, hl, bp =>
    bp % 8 == 0 && (get32 m bp == 0 || chainAligned fuel m hl (get32 m bp + hl))

namespace VA

/-- Variant A's `CHUNKSIZE` as it evaluates inside `MAX(asize, CHUNKSIZE)`,
where the macro argument is parenthesized: `(1<<9)+(1<<8)+(1<<7) = 896`. -/
def CHUNKSIZE : Nat := (1 <<< 9) + (1 <<< 8) + (1 <<< 7)

/-- What `CHUNKSIZE/WSIZE` preprocesses to in `mm_init`:
`(1<<9)+(1<<8)+(1<<7)/4`.  The macro body is unparenthesized and `/` binds
tighter than `+`, so only the last summand is divided: `512 + 256 + 32 = 800`,
not `896/4 = 224`. -/
def chunksizeDivWsize : Nat := (1 <<< 9) + (1 <<< 8) + (1 <<< 7) / 4

/-- The byte count `mm_init` requests from the substrate: `mem_sbrk(6*WSIZE)`. -/
def initSbrkBytes : Nat := 6 * WSIZE

/-- The adjusted block size computed by `mm_malloc`:
`asize = 2*DSIZE` when `size <= DSIZE`, else
`asize = DSIZE * ((size + DSIZE + (DSIZE-1)) / DSIZE)`. -/
def asize (size : Nat) : Nat :=
  if size ≤ DSIZE then 2 * DSIZE
  else DSIZE * ((size + DSIZE + (DSIZE - 1)) / DSIZE)

/-- `freelist_insert(bp)`: LIFO insertion at the head of the single list. -/
def freelist_insert (st : St) (bp : Nat) : St :=
  let m := st.mem
  let hl := st.heap_listp
  let fl := st.free_listp
  if get32 m fl = 0 then
    let m1 := put32 m fl (bp - hl)
    let m2 := put32 m1 bp 0
    let m3 := put32 m2 (bp + WSIZE) 0
    { st with mem := m3 }
  else
    let m1 := put32 m bp (get32 m fl)
    let m2 := put32 m1 (bp + WSIZE) 0
    let m3 := put32 m2 (get32 m2 fl + hl + WSIZE) (bp - hl)
    let m4 := put32 m3 fl (bp - hl)
    { st with mem := m4 }

/-- `freelist_delete(bp)` of variant A: the generic four-`if` deletion with
the single list head. -/
def freelist_delete (st : St) (bp : Nat) : St :=
  { st with mem := deleteIfs st.mem st.heap_listp bp st.free_listp }

/-- `coalesce(bp)`: boundary-tag coalescing, four cases on the allocation
bits of the two physical neighbours, translated statement by statement
(every address is recomputed from the memory current at that statement). -/
def coalesce (st : St) (bp : Nat) : St × Nat :=
  let m := st.mem
  let prev_alloc := GET_ALLOC m (FTRP m (PREV_BLKP m bp))
  let next_alloc := GET_ALLOC m (HDRP (NEXT_BLKP m bp))
  let size := GET_SIZE m (HDRP bp)
  if prev_alloc ≠ 0 ∧ next_alloc ≠ 0 then
    (freelist_insert st bp, bp)
  else if prev_alloc ≠ 0 ∧ next_alloc = 0 then
    let size2 := size + GET_SIZE m (HDRP (NEXT_BLKP m bp))
    let m2 := put32 m (HDRP bp) (PACK size2 0)
    let m3 := put32 m2 (FTRP m2 bp) (PACK size2 0)
    (freelist_insert { st with mem := m3 } bp, bp)
  else if prev_alloc = 0 ∧ next_alloc ≠ 0 then
    let st1 := freelist_delete st (PREV_BLKP m bp)
    let m1 := st1.mem
    let size2 := size + GET_SIZE m1 (HDRP (PREV_BLKP m1 bp))
    let m2 := put32 m1 (FTRP m1 bp) (PACK size2 0)
    let m3 := put32 m2 (HDRP (PREV_BLKP m2 bp)) (PACK size2 0)
    let bp2 := PREV_BLKP m3 bp
    (freelist_insert { st1 with mem := m3 } bp2, bp2)
  else
    let st1 := freelist_delete st (PREV_BLKP m bp)
    let m1 := st1.mem
    let st2 := freelist_delete st1 (NEXT_BLKP m1 bp)
    let m2 := st2.mem
    let size2 := size + GET_SIZE m2 (HDRP (PREV_BLKP m2 bp)) +
      GET_SIZE m2 (FTRP m2 (NEXT_BLKP m2 bp))
    let m3 := put32 m2 (HDRP (PREV_BLKP m2 bp)) (PACK size2 0)
    let m4 := put32 m3 (FTRP m3 (NEXT_BLKP m3 bp)) (PACK size2 0)
    let bp2 := PREV_BLKP m4 bp
    (freelist_insert { st2 with mem := m4 } bp2, bp2)

/-- `extend_heap(words)`: round up to an even word count, grow the heap,
overlay the old epilogue with the new free block's header, write its footer
and a fresh epilogue, and coalesce. -/
def extend_heap (st : St) (words : Nat) : St × Option Nat :=
  let size := if words % 2 = 1 then (words + 1) * WSIZE else words * WSIZE
  match memSbrk st size with
  | (st1, bp) =>
    if bp = MINUS1 then (st1, none)
    else
      let m1 := put32 st1.mem (HDRP bp) (PACK size 0)
      let m2 := put32 m1 (FTRP m1 bp) (PACK size 0)
      let m3 := put32 m2 (HDRP (NEXT_BLKP m2 bp)) (PACK 0 1)
      let r := coalesce { st1 with mem := m3 } bp
      (r.1, some r.2)

/-- The write-and-set-up part of `mm_init` after a successful `mem_sbrk`:
pad word, free-list head, prologue header/footer `PACK(DSIZE,1)`, epilogue
`PACK(0,1)`, then point `free_listp` one word and `heap_listp` four words
into the region.  (The word at `base + 2*WSIZE` is never written.) -/
def initWrites (st : St) (base : Nat) : St :=
  let m1 := put32 st.mem base 0
  let m2 := put32 m1 (base + 1 * WSIZE) 0
  let m3 := put32 m2 (base + 3 * WSIZE) (PACK DSIZE 1)
  let m4 := put32 m3 (base + 4 * WSIZE) (PACK DSIZE 1)
  let m5 := put32 m4 (base + 5 * WSIZE) (PACK 0 1)
  { st with mem := m5, free_listp := base + 1 * WSIZE, heap_listp := base + 4 * WSIZE }

/-- `mm_init()`: `mem_sbrk(6*WSIZE)`, the initial writes, then
`extend_heap(CHUNKSIZE/WSIZE)`.  Returns `false` for C's `-1`; on a failed
first `mem_sbrk` the C code leaves `heap_listp = (void *)-1`. -/
def mm_init (st : St) : St × Bool :=
  match memSbrk st initSbrkBytes with
  | (st1, p) =>
    if p = MINUS1 then ({ st1 with heap_listp := MINUS1 }, false)
    else
      let st2 := initWrites st1 p
      match extend_heap st2 chunksizeDivWsize with
      | (st3, none) => (st3, false)
      | (st3, some _) => (st3, true)

/-- `find_fit(asize)` (first fit): walk the explicit free list. -/
def find_fit (st : St) (a : Nat) : Option Nat :=
  find_block st.len st.mem st.heap_listp st.free_listp a

/-- `place(bp, asize)`: unlink `bp`, then either split (remainder at least
`2*DSIZE`) and re-insert the free tail, or allocate the whole block.
(`csize - asize` is the C `size_t` subtraction; the branches differ from C
only in the never-taken case `asize > csize`, where `size_t` would wrap.) -/
def place (st : St) (bp a : Nat) : St :=
  let csize := GET_SIZE st.mem (HDRP bp)
  let st1 := freelist_delete st bp
  if csize - a ≥ 2 * DSIZE then
    let m1 := put32 st1.mem (HDRP bp) (PACK a 1)
    let m2 := put32 m1 (FTRP m1 bp) (PACK a 1)
    let bp2 := NEXT_BLKP m2 bp
    let m3 := put32 m2 (HDRP bp2) (PACK (csize - a) 0)
    let m4 := put32 m3 (FTRP m3 bp2) (PACK (csize - a) 0)
    freelist_insert { st1 with mem := m4 } bp2
  else
    let m1 := put32 st1.mem (HDRP bp) (PACK csize 1)
    let m2 := put32 m1 (FTRP m1 bp) (PACK csize 1)
    { st1 with mem := m2 }

/-- The body of `mm_malloc` after the lazy-init check: reject `size == 0`,
adjust the size, first-fit search, place on a hit, otherwise extend by
`MAX(asize, CHUNKSIZE)` bytes and place. -/
def mallocBody (st : St) (size : Nat) : St × Option Nat :=
  if size = 0 then (st, none)
  else
    let a := asize size
    match find_fit st a with
    | some bp => (place st bp a, some bp)
    | none =>
      let extendsize := max a CHUNKSIZE
      match extend_heap st (extendsize / WSIZE) with
      | (st1, none) => (st1, none)
      | (st1, some bp) => (place st1 bp a, some bp)

/-- `mm_malloc(size)`: run `mm_init` first if `heap_listp` is still `0`
(its return value is ignored), then the body. -/
def mm_malloc (st : St) (size : Nat) : St × Option Nat :=
  let st' := if st.heap_listp = 0 then (mm_init st).1 else st
  mallocBody st' size

/-- `mm_free(bp)`: null is a no-op; the block size is read *before* the
lazy-init check (source order); then clear the allocated bit in header and
footer and coalesce. -/
def mm_free (st : St) (bp : Nat) : St :=
  if bp = 0 then st
  else
    let size := GET_SIZE st.mem (HDRP bp)
    let st1 := if st.heap_listp = 0 then (mm_init st).1 else st
    let m1 := put32 st1.mem (HDRP bp) (PACK size 0)
    let m2 := put32 m1 (FTRP m1 bp) (PACK size 0)
    (coalesce { st1 with mem := m2 } bp).1

/-- `mm_realloc(ptr, size)`: free on `size == 0`, malloc on null `ptr`,
otherwise malloc a new block (fail leaves the original untouched), copy
`reallocCopyLen (GET_SIZE (HDRP ptr)) size` bytes, free the old block. -/
def mm_realloc (st : St) (ptr size : Nat) : St × Option Nat :=
  if size = 0 then (mm_free st ptr, none)
  else if ptr = 0 then mm_malloc st size
  else
    match mm_malloc st size with
    | (st1, none) => (st1, none)
    | (st1, some newptr) =>
      let oldsize := reallocCopyLen (GET_SIZE st1.mem (HDRP ptr)) size
      let st2 := { st1 with mem := memcpy st1.mem newptr ptr oldsize }
      (mm_free st2 ptr, some newptr)

/-- `calloc(nmemb, size)`.  Modelled from the spec: the allocation facade
binds the `malloc` the source calls here to the allocator's own
`mm_malloc` (the header `mm.h` that fixes this binding is not under
`src/`; §6 of the spec makes `calloc` "equivalent to `alloc(count*size)`
followed by zeroing the payload").  The source then calls
`memset(newptr, 0, bytes)` with **no** null check; a null `newptr` with
`bytes > 0` dereferences the null pointer, which this model renders as the
undefined outcome `none` (a zero-length `memset` is kept as a no-op). -/
def calloc (st : St) (nmemb size : Nat) : Option (St × Option Nat) :=
  let bytes := nmemb * size
  match mm_malloc st bytes with
  | (st1, some p) => some ({ st1 with mem := memset st1.mem p 0 bytes }, some p)
  | (st1, none) => if bytes = 0 then some (st1, none) else none

end VA

namespace VB

/-- Variant B's `CHUNKSIZE` as it evaluates inside `MAX(asize, CHUNKSIZE)`:
`(1<<8)-(1<<5) = 224`. -/
def CHUNKSIZE : Nat := (1 <<< 8) - (1 <<< 5)

/-- What `CHUNKSIZE/WSIZE` preprocesses to in variant B's `mm_init`:
`(1<<8)-(1<<5)/4 = 256 - 8 = 248`, not `224/4 = 56`. -/
def chunksizeDivWsize : Nat := (1 <<< 8) - (1 <<< 5) / 4

/-- The byte count variant B's `mm_init` requests:
`mem_sbrk(4*WSIZE + LIST_NUM*WSIZE)`. -/
def initSbrkBytes : Nat := 4 * WSIZE + LIST_NUM * WSIZE

/-- The adjusted block size of variant B's `mm_malloc`:
`asize = 2*DSIZE` when `size <= DSIZE`, else
`asize = DSIZE * ((size + WSIZE + (DSIZE-1)) / DSIZE)` (footer elided). -/
def asize (size : Nat) : Nat :=
  if size ≤ DSIZE then 2 * DSIZE
  else DSIZE * ((size + WSIZE + (DSIZE - 1)) / DSIZE)

/-- `PUT_HD(p, val) = (GET(p) = (GET(p) & 0x2) | (val))`: store a header
word keeping its former bit 1 (the predecessor-allocated bit). -/
def PUT_HD (m : Mem) (p v : Nat) : Mem :=
  put32 m p ((get32 m p &&& 2) ||| v)

/-- `PREV_ALLOC(bp) = (GET(HDRP(NEXT_BLKP(bp))) |= 0x2)`: mark the next
physical block's predecessor as allocated. -/
def prevAllocSet (m : Mem) (bp : Nat) : Mem :=
  put32 m (HDRP (NEXT_BLKP m bp)) (get32 m (HDRP (NEXT_BLKP m bp)) ||| 2)

/-- `PREV_UNALLOC(bp) = (GET(HDRP(NEXT_BLKP(bp))) &= ~0x2)`. -/
def prevAllocClear (m : Mem) (bp : Nat) : Mem :=
  put32 m (HDRP (NEXT_BLKP m bp)) (get32 m (HDRP (NEXT_BLKP m bp)) &&& 0xFFFFFFFD)

/-- `LIST1 .. LIST23`: the upper bounds the `list_entry` chain tests. -/
def LIST1 : Nat := 1 <<< 4

/-- `LIST2`. -/
def LIST2 : Nat := 24

/-- `LIST3`. -/
def LIST3 : Nat := 48

/-- `LIST4`. -/
def LIST4 : Nat := 1 <<< 7

/-- `LIST5`. -/
def LIST5 : Nat := 1 <<< 8

/-- `LIST6`. -/
def LIST6 : Nat := 1 <<< 9

/-- `LIST7`. -/
def LIST7 : Nat := 1 <<< 10

/-- `LIST8`. -/
def LIST8 : Nat := 1 <<< 11

/-- `LIST9`. -/
def LIST9 : Nat := 1 <<< 12

/-- `LIST10`. -/
def LIST10 : Nat := 9200

/-- `LIST11`. -/
def LIST11 : Nat := 12000

/-- `LIST12`. -/
def LIST12 : Nat := 16000

/-- `LIST13`. -/
def LIST13 : Nat := 20000

/-- `LIST14`. -/
def LIST14 : Nat := 24000

/-- `LIST15`. -/
def LIST15 : Nat := 28000

/-- `LIST16`. -/
def LIST16 : Nat := 32000

/-- `LIST17`. -/
def LIST17 : Nat := 40000

/-- `LIST18`. -/
def LIST18 : Nat := 1 <<< 15

/-- `LIST19`. -/
def LIST19 : Nat := 1 <<< 16

/-- `LIST20`. -/
def LIST20 : Nat := 1 <<< 17

/-- `LIST21`. -/
def LIST21 : Nat := 1 <<< 18

/-- `LIST22`. -/
def LIST22 : Nat := 1 <<< 19

/-- `LIST23`. -/
def LIST23 : Nat := 1 <<< 20

/-- `list_entry(size)`: the source's `else if` chain.  Note it only tests
up to `LIST19` and then falls through to `LIST_NUM - 1 = 23`; the
`size <= LIST18` (32768) test is unreachable because it follows the
`size <= LIST17` (40000) test. -/
def list_entry (size : Nat) : Nat :=
  if size ≤ LIST1 then 0
  else if size ≤ LIST2 then 1
  else if size ≤ LIST3 then 2
  else if size ≤ LIST4 then 3
  else if size ≤ LIST5 then 4
  else if size ≤ LIST6 then 5
  else if size ≤ LIST7 then 6
  else if size ≤ LIST8 then 7
  else if size ≤ LIST9 then 8
  else if size ≤ LIST10 then 9
  else if size ≤ LIST11 then 10
  else if size ≤ LIST12 then 11
  else if size ≤ LIST13 then 12
  else if size ≤ LIST14 then 13
  else if size ≤ LIST15 then 14
  else if size ≤ LIST16 then 15
  else if size ≤ LIST17 then 16
  else if size ≤ LIST18 then 17
  else if size ≤ LIST19 then 18
  else LIST_NUM - 1

/-- The head-word address of the class for a block of size `sz`:
`(unsigned int *)free_listp + list_entry(size)`. -/
def listAddrOf (fl sz : Nat) : Nat := fl + WSIZE * list_entry sz

/-- Variant B's `freelist_insert(bp)`: LIFO insertion at the head of the
class selected by `list_entry(GET_SIZE(HDRP(bp)))`. -/
def freelist_insert (st : St) (bp : Nat) : St :=
  let m := st.mem
  let hl := st.heap_listp
  let la := listAddrOf st.free_listp (GET_SIZE m (HDRP bp))
  if get32 m la = 0 then
    let m1 := put32 m la (bp - hl)
    let m2 := put32 m1 bp 0
    let m3 := put32 m2 (bp + WSIZE) 0
    { st with mem := m3 }
  else
    let m1 := put32 m bp (get32 m la)
    let m2 := put32 m1 (bp + WSIZE) 0
    let m3 := put32 m2 (get32 m2 la + hl + WSIZE) (bp - hl)
    let m4 := put32 m3 la (bp - hl)
    { st with mem := m4 }

/-- Variant B's `freelist_delete(bp)`: the generic four-`if` deletion with
the head of the class of `GET_SIZE(HDRP(bp))`. -/
def freelist_delete (st : St) (bp : Nat) : St :=
  { st with
    mem := deleteIfs st.mem st.heap_listp bp
      (listAddrOf st.free_listp (GET_SIZE st.mem (HDRP bp))) }

/-- Variant B's `coalesce(bp)`: as variant A's, except that the left
neighbour's state is read from bit 1 of `bp`'s own header
(`GET_PREV_ALLOC(bp) = GET(HDRP(bp)) & 0x2`) and header rewrites go
through `PUT_HD`, preserving that bit. -/
def coalesce (st : St) (bp : Nat) : St × Nat :=
  let m := st.mem
  let prev_alloc := get32 m (HDRP bp) &&& 2
  let next_alloc := GET_ALLOC m (HDRP (NEXT_BLKP m bp))
  let size := GET_SIZE m (HDRP bp)
  if prev_alloc ≠ 0 ∧ next_alloc ≠ 0 then
    (freelist_insert st bp, bp)
  else if prev_alloc ≠ 0 ∧ next_alloc = 0 then
    let size2 := size + GET_SIZE m (HDRP (NEXT_BLKP m bp))
    let m2 := PUT_HD m (HDRP bp) (PACK size2 0)
    let m3 := put32 m2 (FTRP m2 bp) (PACK size2 0)
    (freelist_insert { st with mem := m3 } bp, bp)
  else if prev_alloc = 0 ∧ next_alloc ≠ 0 then
    let st1 := freelist_delete st (PREV_BLKP m bp)
    let m1 := st1.mem
    let size2 := size + GET_SIZE m1 (HDRP (PREV_BLKP m1 bp))
    let m2 := put32 m1 (FTRP m1 bp) (PACK size2 0)
    let m3 := PUT_HD m2 (HDRP (PREV_BLKP m2 bp)) (PACK size2 0)
    let bp2 := PREV_BLKP m3 bp
    (freelist_insert { st1 with mem := m3 } bp2, bp2)
  else
    let st1 := freelist_delete st (PREV_BLKP m bp)
    let m1 := st1.mem
    let st2 := freelist_delete st1 (NEXT_BLKP m1 bp)
    let m2 := st2.mem
    let size2 := size + GET_SIZE m2 (HDRP (PREV_BLKP m2 bp)) +
      GET_SIZE m2 (FTRP m2 (NEXT_BLKP m2 bp))
    let m3 := PUT_HD m2 (HDRP (PREV_BLKP m2 bp)) (PACK size2 0)
    let m4 := put32 m3 (FTRP m3 (NEXT_BLKP m3 bp)) (PACK size2 0)
    let bp2 := PREV_BLKP m4 bp
    (freelist_insert { st2 with mem := m4 } bp2, bp2)

/-- Variant B's `extend_heap(words)`: header and fresh epilogue are written
with `PUT_HD`, so the new block's header inherits the old epilogue's
bit 1 (the allocation state of the previous tail block). -/
def extend_heap (st : St) (words : Nat) : St × Option Nat :=
  let size := if words % 2 = 1 then (words + 1) * WSIZE else words * WSIZE
  match memSbrk st size with
  | (st1, bp) =>
    if bp = MINUS1 then (st1, none)
    else
      let m1 := PUT_HD st1.mem (HDRP bp) (PACK size 0)
      let m2 := put32 m1 (FTRP m1 bp) (PACK size 0)
      let m3 := PUT_HD m2 (HDRP (NEXT_BLKP m2 bp)) (PACK 0 1)
      let r := coalesce { st1 with mem := m3 } bp
      (r.1, some r.2)

/-- `for (i = 0; i < LIST_NUM; i++) PUT(free_listp + i*WSIZE, 0)`:
zero `k` consecutive head words starting at `a`. -/
def zeroHeads (m : Mem) (a : Nat) : Nat → Mem
  | 0 => m
  | k + 1 => zeroHeads (put32 m a 0) (a + WSIZE) k

/-- The write-and-set-up part of variant B's `mm_init` after a successful
`mem_sbrk`: pad, prologue header/footer, epilogue, pointer setup,
`PREV_ALLOC(heap_listp)` (sets bit 1 of the epilogue), then the loop
zeroing the 24 list heads. -/
def initWrites (st : St) (base : Nat) : St :=
  let m1 := put32 st.mem base 0
  let m2 := put32 m1 (base + (LIST_NUM + 1) * WSIZE) (PACK DSIZE 1)
  let m3 := put32 m2 (base + (LIST_NUM + 2) * WSIZE) (PACK DSIZE 1)
  let m4 := put32 m3 (base + (LIST_NUM + 3) * WSIZE) (PACK 0 1)
  let fl := base + 1 * WSIZE
  let hl := base + (LIST_NUM + 2) * WSIZE
  let m5 := prevAllocSet m4 hl
  let m6 := zeroHeads m5 fl LIST_NUM
  { st with mem := m6, free_listp := fl, heap_listp := hl }

/-- Variant B's `mm_init()`. -/
def mm_init (st : St) : St × Bool :=
  match memSbrk st initSbrkBytes with
  | (st1, p) =>
    if p = MINUS1 then ({ st1 with heap_listp := MINUS1 }, false)
    else
      let st2 := initWrites st1 p
      match extend_heap st2 chunksizeDivWsize with
      | (st3, none) => (st3, false)
      | (st3, some _) => (st3, true)

/-- The `while (entry < LIST_NUM)` loop of variant B's `find_fit`: skip
empty classes, run `find_block` on non-empty ones, move to the next class
when it yields nothing.  The fuel only bounds the (at most 24) iterations. -/
def findFitLoop : Nat → St → Nat → Nat → Option Nat
  | 0, _, _, _ => none
  | fuel + 1, st, entry, a =>
    if entry < LIST_NUM then
      if get32 st.mem (st.free_listp + WSIZE * entry) = 0 then
        findFitLoop fuel st (entry + 1) a
      else
        match find_block st.len st.mem st.heap_listp (st.free_listp + WSIZE * entry) a with
        | some bp => some bp
        | none => findFitLoop fuel st (entry + 1) a
    else none

/-- Variant B's `find_fit(asize)`: first fit from the entry class upward. -/
def find_fit (st : St) (a : Nat) : Option Nat :=
  findFitLoop LIST_NUM st (list_entry a) a

/-- Variant B's `place(bp, asize)`: like variant A's but with `PUT_HD`
header writes, no footers on allocated blocks, and bit-1 maintenance of
the physical successor (`PREV_ALLOC`/`PREV_UNALLOC`). -/
def place (st : St) (bp a : Nat) : St :=
  let csize := GET_SIZE st.mem (HDRP bp)
  let st1 := freelist_delete st bp
  if csize - a ≥ 2 * DSIZE then
    let m1 := PUT_HD st1.mem (HDRP bp) (PACK a 1)
    let m2 := prevAllocSet m1 bp
    let bp2 := NEXT_BLKP m2 bp
    let m3 := PUT_HD m2 (HDRP bp2) (PACK (csize - a) 0)
    let m4 := put32 m3 (FTRP m3 bp2) (PACK (csize - a) 0)
    let m5 := prevAllocClear m4 bp2
    freelist_insert { st1 with mem := m5 } bp2
  else
    let m1 := PUT_HD st1.mem (HDRP bp) (PACK csize 1)
    let m2 := prevAllocSet m1 bp
    { st1 with mem := m2 }

/-- The body of variant B's `mm_malloc` after the lazy-init check. -/
def mallocBody (st : St) (size : Nat) : St × Option Nat :=
  if size = 0 then (st, none)
  else
    let a := asize size
    match find_fit st a with
    | some bp => (place st bp a, some bp)
    | none =>
      let extendsize := max a CHUNKSIZE
      match extend_heap st (extendsize / WSIZE) with
      | (st1, none) => (st1, none)
      | (st1, some bp) => (place st1 bp a, some bp)

/-- Variant B's `mm_malloc(size)`. -/
def mm_malloc (st : St) (size : Nat) : St × Option Nat :=
  let st' := if st.heap_listp = 0 then (mm_init st).1 else st
  mallocBody st' size

/-- Variant B's `mm_free(bp)`: header via `PUT_HD`, fresh footer, clear
bit 1 of the physical successor, coalesce. -/
def mm_free (st : St) (bp : Nat) : St :=
  if bp = 0 then st
  else
    let size := GET_SIZE st.mem (HDRP bp)
    let st1 := if st.heap_listp = 0 then (mm_init st).1 else st
    let m1 := PUT_HD st1.mem (HDRP bp) (PACK size 0)
    let m2 := put32 m1 (FTRP m1 bp) (PACK size 0)
    let m3 := prevAllocClear m2 bp
    (coalesce { st1 with mem := m3 } bp).1

/-- Variant B's `mm_realloc(ptr, size)` (same code as variant A's). -/
def mm_realloc (st : St) (ptr size : Nat) : St × Option Nat :=
  if size = 0 then (mm_free st ptr, none)
  else if ptr = 0 then mm_malloc st size
  else
    match mm_malloc st size with
    | (st1, none) => (st1, none)
    | (st1, some newptr) =>
      let oldsize := reallocCopyLen (GET_SIZE st1.mem (HDRP ptr)) size
      let st2 := { st1 with mem := memcpy st1.mem newptr ptr oldsize }
      (mm_free st2 ptr, some newptr)

/-- Variant B's `calloc(nmemb, size)`; see `VA.calloc` for the modelling of
the facade's `malloc` binding and of the unchecked `memset`. -/
def calloc (st : St) (nmemb size : Nat) : Option (St × Option Nat) :=
  let bytes := nmemb * size
  match mm_malloc st bytes with
  | (st1, some p) => some ({ st1 with mem := memset st1.mem p 0 bytes }, some p)
  | (st1, none) => if bytes = 0 then some (st1, none) else none

end VB

/-- The class selection exactly as the specification words it: 24 classes
indexed 0..23 with upper bounds 16, 24, 48, 128, 256, 512, 1024, 2048,
4096, 9200, 12000, 16000, 20000, 24000, 28000, 32000, 40000, 32768, 65536,
131072, 262144, 524288, 1048576 and ∞; a size `s` targets the smallest
class whose upper bound is `≥ s`.  (Defined for comparison with the
source's `VB.list_entry`.) -/
def spec_list_entry (s : Nat) : Nat :=
  if s ≤ 16 then 0
  else if s ≤ 24 then 1
  else if s ≤ 48 then 2
  else if s ≤ 128 then 3
  else if s ≤ 256 then 4
  else if s ≤ 512 then 5
  else if s ≤ 1024 then 6
  else if s ≤ 2048 then 7
  else if s ≤ 4096 then 8
  else if s ≤ 9200 then 9
  else if s ≤ 12000 then 10
  else if s ≤ 16000 then 11
  else if s ≤ 20000 then 12
  else if s ≤ 24000 then 13
  else if s ≤ 28000 then 14
  else if s ≤ 32000 then 15
  else if s ≤ 40000 then 16
  else if s ≤ 32768 then 17
  else if s ≤ 65536 then 18
  else if s ≤ 131072 then 19
  else if s ≤ 262144 then 20
  else if s ≤ 524288 then 21
  else if s ≤ 1048576 then 22
  else 23

/-- A small well-formed variant-A heap used to run the operations on
concrete inputs: pad, free-list head at 12 (offset 24, i.e. block 48),
prologue header/footer 9 at 20/24, an allocated 16-byte block at payload 32
holding bytes 1..8 (header 17 at 28, footer 17 at 40), a free 64-byte block
at payload 48 — the sole free-list member, links zero — with header 64 at
44 and footer 64 at 104, and the epilogue 1 at 108. -/
def demoAMem : Mem :=
  put32 (put32 (put32 (put32 (put32 (put32 (put32 (put32
    (storeBytes (fun _ => 0) 32 [1, 2, 3, 4, 5, 6, 7, 8])
    12 24) 20 9) 24 9) 28 17) 40 17) 44 64) 104 64) 108 1

/-- The variant-A demo state over `demoAMem`: `heap_listp = 24`,
`free_listp = 12`, break 112, capacity 112 (the substrate refuses any
further growth). -/
def demoA : St :=
  { mem := demoAMem, len := 112, heap_listp := 24, free_listp := 12, limit := 112 }

/-- A small well-formed variant-B heap: pad, 24 heads at 12..107 (class 3
holds offset 8, i.e. block 120; the rest are empty), prologue header/footer
9 at 108/112, a free 64-byte block at payload 120 (header `64 | 2` at 116 —
bit 1 set, the prologue is allocated — links zero, footer 64 at 176), and
the epilogue 1 at 180 (bit 1 clear: its predecessor is free). -/
def demoBMem : Mem :=
  put32 (put32 (put32 (put32 (put32 (put32 (fun _ => 0)
    24 8) 108 9) 112 9) 116 66) 176 64) 180 1

/-- The variant-B demo state over `demoBMem`: `heap_listp = 112`,
`free_listp = 12`, break 184, capacity 184. -/
def demoB : St :=
  { mem := demoBMem, len := 184, heap_listp := 112, free_listp := 12, limit := 184 }

/-- The realloc scenario of §8: on the demo heap, grow the 16-byte block at
payload 32 (whose 8 usable payload bytes hold 1..8) to 16 requested bytes. -/
def reallocDemo : St × Option Nat := VA.mm_realloc demoA 32 16

/-- Write-target addresses that stay clear of both link words of `bp`
(`next_off` at `bp`, `prev_off` at `bp + WSIZE`, four bytes each). -/
def AwayFromLinks (bp w : Nat) : Prop := w + 4 ≤ bp ∨ bp + 8 ≤ w

/-- Variant A's free-list chain is well formed for alignment purposes:
either empty, or every block pointer on it is 8-byte aligned and the chain
terminates (cf. `chainAligned`). -/
def listChainOkA (st : St) : Bool :=
  get32 st.mem st.free_listp == 0 ||
    chainAligned st.len st.mem st.heap_listp
      (get32 st.mem st.free_listp + st.heap_listp)

/-- Variant B: every one of the 24 class chains is empty or aligned. -/
def listChainsOkB (st : St) : Bool :=
  (List.range LIST_NUM).all fun e =>
    get32 st.mem (st.free_listp + WSIZE * e) == 0 ||
      chainAligned st.len st.mem st.heap_listp
        (get32 st.mem (st.free_listp + WSIZE * e) + st.heap_listp)

/-- "The substrate refuses a needed heap extension" for variant A's
`mm_malloc(n)`: the fit search comes up empty and the
`extend_heap(MAX(asize, CHUNKSIZE)/WSIZE)` call that `mm_malloc` then
makes fails (that happens exactly when `mem_sbrk` refuses). -/
def extensionRefusedA (st : St) (n : Nat) : Prop :=
  VA.find_fit st (VA.asize n) = none ∧
    (VA.extend_heap st (max (VA.asize n) VA.CHUNKSIZE / WSIZE)).2 = none

/-- "The substrate refuses a needed heap extension" for variant B. -/
def extensionRefusedB (st : St) (n : Nat) : Prop :=
  VB.find_fit st (VB.asize n) = none ∧
    (VB.extend_heap st (max (VB.asize n) VB.CHUNKSIZE / WSIZE)).2 = none

/-!
## The block-level view of the heap

For the adjacency invariant the heap between the prologue and the epilogue
is its sequence of blocks.  An operation at a block is written on a zipper
`(l, b, r)`: `b` is the focused block, `l` the blocks to its left in
*reversed* order (so `PREV_BLKP` is `l.head`), `r` the blocks to its right
(`NEXT_BLKP` is `r.head`); a missing neighbour is the corresponding
allocated sentinel.  `glue` reassembles the heap.  The variant-A functions
below mirror `coalesce`/`place`/`extend_heap`/`mm_free` of
`mm-explicit list/mm.c`; the variant-B ones additionally carry bit 1 of
each header (`prevBit`) and of the epilogue, mirroring `PUT_HD`,
`PREV_ALLOC` and `PREV_UNALLOC` of `mm-segregated list/mm.c`.
-/

/-- A block: size and allocated bit (variant A keeps them in header and
footer; only their values matter at this level). -/
structure Blk where
  size : Nat
  alloc : Bool
deriving DecidableEq

/-- The allocation bit `coalesce` sees at the head of a neighbour list; an
empty side is the allocated sentinel (prologue or epilogue). -/
def headAllocD : List Blk → Bool
  | [] => true
  | b :: _ => b.alloc

/-- The allocation bit of the last block, the sentinel convention again. -/
def lastAllocD : List Blk → Bool
  | [] => true
  | [b] => b.alloc
  | _ :: t => lastAllocD t

/-- No two physically adjacent blocks are both free (invariant 3 / §8). -/
def noAdjFree : List Blk → Bool
  | a :: b :: t => (a.alloc || b.alloc) && noAdjFree (b :: t)
  | _ => true

/-- Reassemble the heap from a zipper. -/
def glue (l : List Blk) (b : Blk) (r : List Blk) : List Blk :=
  l.reverse ++ b :: r

/-- `coalesce(bp)` at the block level (variant A): the four cases on
`GET_ALLOC(FTRP(PREV_BLKP(bp)))` and `GET_ALLOC(HDRP(NEXT_BLKP(bp)))`,
sizes summed as the source sums them; returns the new zipper (the source
returns the possibly relocated `bp`). -/
def coalesceL (l : List Blk) (b : Blk) (r : List Blk) :
    List Blk × Blk × List Blk :=
  match l, r with
  | p :: l', n :: r' =>
    if p.alloc && n.alloc then (l, b, r)
    else if p.alloc && !n.alloc then (l, ⟨b.size + n.size, false⟩, r')
    else if !p.alloc && n.alloc then (l', ⟨p.size + b.size, false⟩, r)
    else (l', ⟨p.size + b.size + n.size, false⟩, r')
  | p :: l', [] =>
    if p.alloc then (l, b, r) else (l', ⟨p.size + b.size, false⟩, [])
  | [], n :: r' =>
    if n.alloc then (l, b, r) else ([], ⟨b.size + n.size, false⟩, r')
  | [], [] => (l, b, r)

/-- `mm_free` at the block level: clear the allocated bit, coalesce. -/
def freeAt (l : List Blk) (b : Blk) (r : List Blk) : List Blk :=
  let z := coalesceL l ⟨b.size, false⟩ r
  glue z.1 z.2.1 z.2.2

/-- `place(bp, asize)` at the block level: split when the remainder is at
least `2*DSIZE`, else allocate the whole block. -/
def placeAt (l : List Blk) (b : Blk) (r : List Blk) (a : Nat) : List Blk :=
  if b.size - a ≥ 2 * DSIZE then glue l ⟨a, true⟩ (⟨b.size - a, false⟩ :: r)
  else glue l ⟨b.size, true⟩ r

/-- `extend_heap` at the block level: a fresh free block appears before the
epilogue and is coalesced (only its left neighbour can be free). -/
def extendAt (h : List Blk) (sz : Nat) : List Blk × Blk × List Blk :=
  coalesceL h.reverse ⟨sz, false⟩ []

/-- The no-fit path of `mm_malloc`: extend, then place on the block
`extend_heap` returned. -/
def mallocGrow (h : List Blk) (a sz : Nat) : List Blk :=
  let z := extendAt h sz
  placeAt z.1 z.2.1 z.2.2 a

/-- The heaps reachable by complete operations in variant A, starting from
`mm_init`'s single free block.  `mallocFit` covers `mm_malloc` when
`find_fit` succeeds: the chosen block is on the free list, hence free
(spec invariant 4); `mallocGrow` covers the extension path; `freeBlk`
covers `mm_free` of an allocated block (freeing anything else is undefined
behaviour, §7).  `mm_realloc` is `mm_malloc` followed by `mm_free` of the
old block, so its steps are compositions of these; failed or size-zero
calls leave the heap unchanged. -/
inductive ReachA : List Blk → Prop
  | init (sz : Nat) : ReachA [⟨sz, false⟩]
  | mallocFit (l : List Blk) (b : Blk) (r : List Blk) (a : Nat) :
      ReachA (glue l b r) → b.alloc = false → ReachA (placeAt l b r a)
  | mallocGrow (h : List Blk) (a sz : Nat) :
      ReachA h → ReachA (mallocGrow h a sz)
  | freeBlk (l : List Blk) (b : Blk) (r : List Blk) :
      ReachA (glue l b r) → b.alloc = true → ReachA (freeAt l b r)

/-- A variant-B block: size, allocated bit, and bit 1 of its header (set
when the physically preceding block is allocated). -/
structure BlkB where
  size : Nat
  alloc : Bool
  prevBit : Bool
deriving DecidableEq

/-- A variant-B heap: its blocks and bit 1 of the epilogue header. -/
structure HeapB where
  blks : List BlkB
  epiBit : Bool
deriving DecidableEq

/-- Sentinel-completed head allocation bit. -/
def headAllocB : List BlkB → Bool
  | [] => true
  | b :: _ => b.alloc

/-- No two adjacent blocks are both free, variant-B blocks. -/
def noAdjFreeB : List BlkB → Bool
  | a :: b :: t => (a.alloc || b.alloc) && noAdjFreeB (b :: t)
  | _ => true

/-- Invariant 6: walking the blocks with the allocation state of the
predecessor (`prev`, initially the allocated prologue), every header's
bit 1 equals it. -/
def bitsChain (prev : Bool) : List BlkB → Bool
  | [] => true
  | b :: t => (b.prevBit == prev) && bitsChain b.alloc t

/-- The allocation state of the last block (`prev` when there is none):
what the epilogue's bit 1 must equal. -/
def lastAllocB (prev : Bool) : List BlkB → Bool
  | [] => prev
  | b :: t => lastAllocB b.alloc t

/-- The full variant-B invariant carried through the induction:
no adjacent free pair, and every bit 1 (epilogue included) is accurate. -/
def InvB (h : HeapB) : Bool :=
  noAdjFreeB h.blks && bitsChain true h.blks && (h.epiBit == lastAllocB true h.blks)

/-- Reassemble a variant-B heap from a zipper. -/
def glueB (l : List BlkB) (b : BlkB) (r : List BlkB) : List BlkB :=
  l.reverse ++ b :: r

/-- `PREV_UNALLOC(bp)`: clear bit 1 of the physical successor (the epilogue
when there is none). -/
def clearNextBit : List BlkB → Bool → List BlkB × Bool
  | [], _ => ([], false)
  | n :: r', epi => (⟨n.size, n.alloc, false⟩ :: r', epi)

/-- `PREV_ALLOC(bp)`: set bit 1 of the physical successor. -/
def setNextBit : List BlkB → Bool → List BlkB × Bool
  | [], _ => ([], true)
  | n :: r', epi => (⟨n.size, n.alloc, true⟩ :: r', epi)

/-- Variant B's `coalesce(bp)` at the block level: the left neighbour's
state is read from `bp`'s **own** bit 1 (`GET_PREV_ALLOC`), the right
neighbour's from its header; merged headers are written with `PUT_HD`, so
they keep the bit 1 of the header being rewritten.  The `match` fallbacks
are unreachable whenever bit 1 is accurate (invariant 6): a free left
neighbour implies the left side is nonempty. -/
def coalesceB (l : List BlkB) (b : BlkB) (r : List BlkB) :
    List BlkB × BlkB × List BlkB :=
  let prevAlloc := b.prevBit
  let nextAlloc := headAllocB r
  if prevAlloc && nextAlloc then (l, b, r)
  else if prevAlloc && !nextAlloc then
    match r with
    | n :: r' => (l, ⟨b.size + n.size, false, b.prevBit⟩, r')
    | [] => (l, b, r)
  else if !prevAlloc && nextAlloc then
    match l with
    | p :: l' => (l', ⟨p.size + b.size, false, p.prevBit⟩, r)
    | [] => (l, b, r)
  else
    match l, r with
    | p :: l', n :: r' => (l', ⟨p.size + b.size + n.size, false, p.prevBit⟩, r')
    | _, _ => (l, b, r)

/-- Variant B's `mm_free` at the block level: clear the allocated bit
(`PUT_HD` keeps `prevBit`), clear bit 1 of the successor
(`PREV_UNALLOC`), coalesce. -/
def freeAtB (l : List BlkB) (b : BlkB) (r : List BlkB) (epi : Bool) : HeapB :=
  let rz := clearNextBit r epi
  let z := coalesceB l ⟨b.size, false, b.prevBit⟩ rz.1
  ⟨glueB z.1 z.2.1 z.2.2, rz.2⟩

/-- Variant B's `place(bp, asize)` at the block level.  Split: the placed
part keeps its bit 1, `PREV_ALLOC(bp)` marks the remainder's header, whose
`PUT_HD` write keeps that bit, and `PREV_UNALLOC` of the remainder clears
the old successor's bit.  No split: `PREV_ALLOC` marks the successor. -/
def placeAtB (l : List BlkB) (b : BlkB) (r : List BlkB) (epi : Bool) (a : Nat) :
    HeapB :=
  if b.size - a ≥ 2 * DSIZE then
    let rz := clearNextBit r epi
    ⟨glueB l ⟨a, true, b.prevBit⟩ (⟨b.size - a, false, true⟩ :: rz.1), rz.2⟩
  else
    let rz := setNextBit r epi
    ⟨glueB l ⟨b.size, true, b.prevBit⟩ rz.1, rz.2⟩

/-- Variant B's `extend_heap` at the block level: the new block's header is
written with `PUT_HD` over the old epilogue word, so its bit 1 is the old
epilogue bit; the fresh epilogue word has bit 1 clear. -/
def extendAtB (h : HeapB) (sz : Nat) : List BlkB × BlkB × List BlkB :=
  coalesceB h.blks.reverse ⟨sz, false, h.epiBit⟩ []

/-- Variant B's no-fit `mm_malloc` path: extend then place. -/
def mallocGrowB (h : HeapB) (a sz : Nat) : HeapB :=
  let z := extendAtB h sz
  placeAtB z.1 z.2.1 z.2.2 false a

/-- The variant-B heaps reachable by complete operations; see `ReachA`.
After `mm_init` the single free block has bit 1 set (the prologue is
allocated, `PREV_ALLOC(heap_listp)` set the old epilogue's bit and
`extend_heap`'s `PUT_HD` inherited it) and the fresh epilogue's bit is
clear. -/
inductive ReachB : HeapB → Prop
  | init (sz : Nat) : ReachB ⟨[⟨sz, false, true⟩], false⟩
  | mallocFit (l : List BlkB) (b : BlkB) (r : List BlkB) (epi : Bool) (a : Nat) :
      ReachB ⟨glueB l b r, epi⟩ → b.alloc = false → ReachB (placeAtB l b r epi a)
  | mallocGrow (h : HeapB) (a sz : Nat) :
      ReachB h → ReachB (mallocGrowB h a sz)
  | freeBlk (l : List BlkB) (b : BlkB) (r : List BlkB) (epi : Bool) :
      ReachB ⟨glueB l b r, epi⟩ → b.alloc = true → ReachB (freeAtB l b r epi)

/-- The variant-A state after `mm_init`'s `mem_sbrk` and writes, *before*
the `extend_heap(CHUNKSIZE/WSIZE)` call (which relocates the epilogue). -/
def initPrefixA : St :=
  VA.initWrites (memSbrk (initialSt 8000) VA.initSbrkBytes).1
    (memSbrk (initialSt 8000) VA.initSbrkBytes).2

/-- The variant-B state after `mm_init`'s `mem_sbrk` and writes, before the
`extend_heap` call. -/
def initPrefixB : St :=
  VB.initWrites (memSbrk (initialSt 8000) VB.initSbrkBytes).1
    (memSbrk (initialSt 8000) VB.initSbrkBytes).2

/-- A complete variant-A `mm_init` run on an ample substrate. -/
def initFullA : St × Bool := VA.mm_init (initialSt 8000)

/-- A complete variant-B `mm_init` run on an ample substrate. -/
def initFullB : St × Bool := VB.mm_init (initialSt 8000)

/-!
## Byte-level helper lemmas
-/

/-- Reading a byte other than the one just written sees the old memory. -/
theorem byteAt_setByte_ne (m : Mem) (a v x : Nat) (h : x ≠ a) :
    byteAt (setByte m a v) x = byteAt m x := by
  simp [byteAt, setByte, h]

/-- Reads strictly outside the four bytes of a `put32` are unchanged. -/
theorem byteAt_put32_out (m : Mem) (w v x : Nat) (h : x < w ∨ w + 4 ≤ x) :
    byteAt (put32 m w v) x = byteAt m x := by
  unfold put32
  rw [byteAt_setByte_ne _ _ _ _ (by omega), byteAt_setByte_ne _ _ _ _ (by omega),
    byteAt_setByte_ne _ _ _ _ (by omega), byteAt_setByte_ne _ _ _ _ (by omega)]

/-- A 32-bit read whose window does not meet a `put32`'s window is
unchanged. -/
theorem get32_put32_out (m : Mem) (w v a : Nat) (h : a + 4 ≤ w ∨ w + 4 ≤ a) :
    get32 (put32 m w v) a = get32 m a := by
  unfold get32
  rw [byteAt_put32_out _ _ _ _ (by omega), byteAt_put32_out _ _ _ _ (by omega),
    byteAt_put32_out _ _ _ _ (by omega), byteAt_put32_out _ _ _ _ (by omega)]

/-- Bytes below a `memset`'s window are unchanged. -/
theorem byteAt_memset_of_lt (n : Nat) :
    ∀ (m : Mem) (a v x : Nat), x < a → byteAt (memset m a v n) x = byteAt m x := by
  induction n with
  | zero => intro m a v x _; rfl
  | succ k ih =>
    intro m a v x hx
    show byteAt (memset (setByte m a v) (a + 1) v k) x = byteAt m x
    rw [ih _ _ _ _ (by omega), byteAt_setByte_ne _ _ _ _ (by omega)]

/-- Every byte inside a zeroing `memset`'s window reads `0` afterwards. -/
theorem byteAt_memset_zero (n : Nat) :
    ∀ (m : Mem) (a i : Nat), i < n → byteAt (memset m a 0 n) (a + i) = 0 := by
  induction n with
  | zero => intro m a i h; omega
  | succ k ih =>
    intro m a i hi
    show byteAt (memset (setByte m a 0) (a + 1) 0 k) (a + i) = 0
    cases i with
    | zero =>
      rw [byteAt_memset_of_lt _ _ _ _ _ (by omega)]
      simp [byteAt, setByte]
    | succ j =>
      have : a + (j + 1) = (a + 1) + j := by omega
      rw [this, ih _ _ _ (by omega)]

/-!
## C2: the adjusted block size
-/

/-- C2 is false as stated for variant A: the claim says that for `n > 8`
variant A computes `asize = 8 * ceil((n + 16) / 8)`, i.e.
`8 * ((n + 16 + 7) / 8)`; at `n = 16` that is `32`, but the source
(`asize = DSIZE * ((size + (DSIZE) + (DSIZE-1)) / DSIZE)`) computes `24`. -/
theorem c2_counterexample_asizeA :
    8 < 16 ∧ VA.asize 16 = 24 ∧ 8 * ((16 + 16 + 7) / 8) = 32 ∧
      VA.asize 16 ≠ 8 * ((16 + 16 + 7) / 8) := by decide

/-- C2 (amended): for every request `n > 0` both variants compute
`asize = 16` when `n ≤ 8`; for `n > 8` variant A computes
`8 * ceil((n + 8) / 8)` — characterised below as the unique multiple of 8
in `[n + 8, n + 16)` — and variant B computes `8 * ceil((n + 4) / 8)`,
the unique multiple of 8 in `[n + 4, n + 12)`. -/
theorem c2_adjusted_size (n : Nat) (_h : 0 < n) :
    (n ≤ 8 → VA.asize n = 16 ∧ VB.asize n = 16) ∧
    (8 < n → VA.asize n = 8 * ((n + 8 + 7) / 8) ∧
      VA.asize n % 8 = 0 ∧ n + 8 ≤ VA.asize n ∧ VA.asize n < n + 16 ∧
      VB.asize n = 8 * ((n + 4 + 7) / 8) ∧
      VB.asize n % 8 = 0 ∧ n + 4 ≤ VB.asize n ∧ VB.asize n < n + 12) := by
  unfold VA.asize VB.asize WSIZE DSIZE
  refine ⟨fun hn => ?_, fun hn => ?_⟩
  · rw [if_pos hn, if_pos hn]; exact ⟨rfl, rfl⟩
  · rw [if_neg (by omega), if_neg (by omega)]
    omega

/-- Witness for `c2_adjusted_size` at `n = 20`. -/
theorem c2_adjusted_size_witness :
    0 < 20 ∧ 8 < 20 ∧ VA.asize 20 = 8 * ((20 + 8 + 7) / 8) ∧
      VB.asize 20 = 8 * ((20 + 4 + 7) / 8) :=
  ⟨by decide, by decide, ((c2_adjusted_size 20 (by decide)).2 (by decide)).1,
    ((c2_adjusted_size 20 (by decide)).2 (by decide)).2.2.2.2.1⟩

/-!
## C5: size-class selection
-/

/-- C5 is false as stated: the claim says every adjusted size maps to the
smallest of the 24 classes whose upper bound is `≥ s`; at `s = 131000` that
class is 19 (bound 131072), but the source's `list_entry` chain stops
testing after `LIST19 = 65536` and returns `LIST_NUM - 1 = 23`. -/
theorem c5_counterexample_list_entry :
    VB.list_entry 131000 = 23 ∧ spec_list_entry 131000 = 19 ∧
      VB.list_entry 131000 ≠ spec_list_entry 131000 := by decide

/-- The source's `list_entry` chain with the `LIST*` macros expanded to
their numeric values (definitional). -/
theorem listEntryEq : ∀ s, VB.list_entry s =
    if s ≤ 16 then 0 else if s ≤ 24 then 1 else if s ≤ 48 then 2
    else if s ≤ 128 then 3 else if s ≤ 256 then 4 else if s ≤ 512 then 5
    else if s ≤ 1024 then 6 else if s ≤ 2048 then 7 else if s ≤ 4096 then 8
    else if s ≤ 9200 then 9 else if s ≤ 12000 then 10 else if s ≤ 16000 then 11
    else if s ≤ 20000 then 12 else if s ≤ 24000 then 13 else if s ≤ 28000 then 14
    else if s ≤ 32000 then 15 else if s ≤ 40000 then 16 else if s ≤ 32768 then 17
    else if s ≤ 65536 then 18 else 23 := by
  intro s; rfl

/-- Below 65536 the source's chain agrees with the spec's rule. -/
theorem listEntry_agree_le (s : Nat) (hs : s ≤ 65536) :
    VB.list_entry s = spec_list_entry s := by
  rw [listEntryEq, spec_list_entry]
  by_cases h1 : s ≤ 16
  · simp only [if_pos h1]
  by_cases h2 : s ≤ 24
  · simp only [if_neg h1, if_pos h2]
  by_cases h3 : s ≤ 48
  · simp only [if_neg h1, if_neg h2, if_pos h3]
  by_cases h4 : s ≤ 128
  · simp only [if_neg h1, if_neg h2, if_neg h3, if_pos h4]
  by_cases h5 : s ≤ 256
  · simp only [if_neg h1, if_neg h2, if_neg h3, if_neg h4, if_pos h5]
  by_cases h6 : s ≤ 512
  · simp only [if_neg h1, if_neg h2, if_neg h3, if_neg h4, if_neg h5, if_pos h6]
  by_cases h7 : s ≤ 1024
  · simp only [if_neg h1, if_neg h2, if_neg h3, if_neg h4, if_neg h5, if_neg h6, if_pos h7]
  by_cases h8 : s ≤ 2048
  · simp only [if_neg h1, if_neg h2, if_neg h3, if_neg h4, if_neg h5, if_neg h6, if_neg h7, if_pos h8]
  by_cases h9 : s ≤ 4096
  · simp only [if_neg h1, if_neg h2, if_neg h3, if_neg h4, if_neg h5, if_neg h6, if_neg h7, if_neg h8, if_pos h9]
  by_cases h10 : s ≤ 9200
  · simp only [if_neg h1, if_neg h2, if_neg h3, if_neg h4, if_neg h5, if_neg h6, if_neg h7, if_neg h8, if_neg h9, if_pos h10]
  by_cases h11 : s ≤ 12000
  · simp only [if_neg h1, if_neg h2, if_neg h3, if_neg h4, if_neg h5, if_neg h6, if_neg h7, if_neg h8, if_neg h9, if_neg h10, if_pos h11]
  by_cases h12 : s ≤ 16000
  · simp only [if_neg h1, if_neg h2, if_neg h3, if_neg h4, if_neg h5, if_neg h6, if_neg h7, if_neg h8, if_neg h9, if_neg h10, if_neg h11, if_pos h12]
  by_cases h13 : s ≤ 20000
  · simp only [if_neg h1, if_neg h2, if_neg h3, if_neg h4, if_neg h5, if_neg h6, if_neg h7, if_neg h8, if_neg h9, if_neg h10, if_neg h11, if_neg h12, if_pos h13]
  by_cases h14 : s ≤ 24000
  · simp only [if_neg h1, if_neg h2, if_neg h3, if_neg h4, if_neg h5, if_neg h6, if_neg h7, if_neg h8, if_neg h9, if_neg h10, if_neg h11, if_neg h12, if_neg h13, if_pos h14]
  by_cases h15 : s ≤ 28000
  · simp only [if_neg h1, if_neg h2, if_neg h3, if_neg h4, if_neg h5, if_neg h6, if_neg h7, if_neg h8, if_neg h9, if_neg h10, if_neg h11, if_neg h12, if_neg h13, if_neg h14, if_pos h15]
  by_cases h16 : s ≤ 32000
  · simp only [if_neg h1, if_neg h2, if_neg h3, if_neg h4, if_neg h5, if_neg h6, if_neg h7, if_neg h8, if_neg h9, if_neg h10, if_neg h11, if_neg h12, if_neg h13, if_neg h14, if_neg h15, if_pos h16]
  by_cases h17 : s ≤ 40000
  · simp only [if_neg h1, if_neg h2, if_neg h3, if_neg h4, if_neg h5, if_neg h6, if_neg h7, if_neg h8, if_neg h9, if_neg h10, if_neg h11, if_neg h12, if_neg h13, if_neg h14, if_neg h15, if_neg h16, if_pos h17]
  by_cases h18 : s ≤ 32768
  · exact absurd h18 (by omega)
  by_cases h19 : s ≤ 65536
  · simp only [if_neg h1, if_neg h2, if_neg h3, if_neg h4, if_neg h5, if_neg h6, if_neg h7, if_neg h8, if_neg h9, if_neg h10, if_neg h11, if_neg h12, if_neg h13, if_neg h14, if_neg h15, if_neg h16, if_neg h17, if_neg h18, if_pos h19]
  exact absurd hs h19

/-- Above 65536 the source's chain always selects class 23. -/
theorem listEntry_above (s : Nat) (hs : 65536 < s) :
    VB.list_entry s = 23 := by
  rw [listEntryEq]
  simp only [if_neg (show ¬ s ≤ 16 by omega), if_neg (show ¬ s ≤ 24 by omega), if_neg (show ¬ s ≤ 48 by omega), if_neg (show ¬ s ≤ 128 by omega), if_neg (show ¬ s ≤ 256 by omega), if_neg (show ¬ s ≤ 512 by omega), if_neg (show ¬ s ≤ 1024 by omega), if_neg (show ¬ s ≤ 2048 by omega), if_neg (show ¬ s ≤ 4096 by omega), if_neg (show ¬ s ≤ 9200 by omega), if_neg (show ¬ s ≤ 12000 by omega), if_neg (show ¬ s ≤ 16000 by omega), if_neg (show ¬ s ≤ 20000 by omega), if_neg (show ¬ s ≤ 24000 by omega), if_neg (show ¬ s ≤ 28000 by omega), if_neg (show ¬ s ≤ 32000 by omega), if_neg (show ¬ s ≤ 40000 by omega), if_neg (show ¬ s ≤ 32768 by omega), if_neg (show ¬ s ≤ 65536 by omega)]

/-- The source's chain never selects classes 17 or 19..22. -/
theorem listEntry_range (s : Nat) :
    VB.list_entry s ≤ 16 ∨ VB.list_entry s = 18 ∨ VB.list_entry s = 23 := by
  rw [listEntryEq]
  by_cases h1 : s ≤ 16
  · simp only [if_pos h1]
    decide
  by_cases h2 : s ≤ 24
  · simp only [if_neg h1, if_pos h2]
    decide
  by_cases h3 : s ≤ 48
  · simp only [if_neg h1, if_neg h2, if_pos h3]
    decide
  by_cases h4 : s ≤ 128
  · simp only [if_neg h1, if_neg h2, if_neg h3, if_pos h4]
    decide
  by_cases h5 : s ≤ 256
  · simp only [if_neg h1, if_neg h2, if_neg h3, if_neg h4, if_pos h5]
    decide
  by_cases h6 : s ≤ 512
  · simp only [if_neg h1, if_neg h2, if_neg h3, if_neg h4, if_neg h5, if_pos h6]
    decide
  by_cases h7 : s ≤ 1024
  · simp only [if_neg h1, if_neg h2, if_neg h3, if_neg h4, if_neg h5, if_neg h6, if_pos h7]
    decide
  by_cases h8 : s ≤ 2048
  · simp only [if_neg h1, if_neg h2, if_neg h3, if_neg h4, if_neg h5, if_neg h6, if_neg h7, if_pos h8]
    decide
  by_cases h9 : s ≤ 4096
  · simp only [if_neg h1, if_neg h2, if_neg h3, if_neg h4, if_neg h5, if_neg h6, if_neg h7, if_neg h8, if_pos h9]
    decide
  by_cases h10 : s ≤ 9200
  · simp only [if_neg h1, if_neg h2, if_neg h3, if_neg h4, if_neg h5, if_neg h6, if_neg h7, if_neg h8, if_neg h9, if_pos h10]
    decide
  by_cases h11 : s ≤ 12000
  · simp only [if_neg h1, if_neg h2, if_neg h3, if_neg h4, if_neg h5, if_neg h6, if_neg h7, if_neg h8, if_neg h9, if_neg h10, if_pos h11]
    decide
  by_cases h12 : s ≤ 16000
  · simp only [if_neg h1, if_neg h2, if_neg h3, if_neg h4, if_neg h5, if_neg h6, if_neg h7, if_neg h8, if_neg h9, if_neg h10, if_neg h11, if_pos h12]
    decide
  by_cases h13 : s ≤ 20000
  · simp only [if_neg h1, if_neg h2, if_neg h3, if_neg h4, if_neg h5, if_neg h6, if_neg h7, if_neg h8, if_neg h9, if_neg h10, if_neg h11, if_neg h12, if_pos h13]
    decide
  by_cases h14 : s ≤ 24000
  · simp only [if_neg h1, if_neg h2, if_neg h3, if_neg h4, if_neg h5, if_neg h6, if_neg h7, if_neg h8, if_neg h9, if_neg h10, if_neg h11, if_neg h12, if_neg h13, if_pos h14]
    decide
  by_cases h15 : s ≤ 28000
  · simp only [if_neg h1, if_neg h2, if_neg h3, if_neg h4, if_neg h5, if_neg h6, if_neg h7, if_neg h8, if_neg h9, if_neg h10, if_neg h11, if_neg h12, if_neg h13, if_neg h14, if_pos h15]
    decide
  by_cases h16 : s ≤ 32000
  · simp only [if_neg h1, if_neg h2, if_neg h3, if_neg h4, if_neg h5, if_neg h6, if_neg h7, if_neg h8, if_neg h9, if_neg h10, if_neg h11, if_neg h12, if_neg h13, if_neg h14, if_neg h15, if_pos h16]
    decide
  by_cases h17 : s ≤ 40000
  · simp only [if_neg h1, if_neg h2, if_neg h3, if_neg h4, if_neg h5, if_neg h6, if_neg h7, if_neg h8, if_neg h9, if_neg h10, if_neg h11, if_neg h12, if_neg h13, if_neg h14, if_neg h15, if_neg h16, if_pos h17]
    decide
  by_cases h18 : s ≤ 32768
  · exact absurd h18 (by omega)
  by_cases h19 : s ≤ 65536
  · simp only [if_neg h1, if_neg h2, if_neg h3, if_neg h4, if_neg h5, if_neg h6, if_neg h7, if_neg h8, if_neg h9, if_neg h10, if_neg h11, if_neg h12, if_neg h13, if_neg h14, if_neg h15, if_neg h16, if_neg h17, if_neg h18, if_pos h19]
    decide
  simp only [if_neg h1, if_neg h2, if_neg h3, if_neg h4, if_neg h5, if_neg h6, if_neg h7, if_neg h8, if_neg h9, if_neg h10, if_neg h11, if_neg h12, if_neg h13, if_neg h14, if_neg h15, if_neg h16, if_neg h17, if_neg h18, if_neg h19]
  decide

/-- C5 (amended): `list_entry` agrees with the spec's smallest-class rule
for all `s ≤ 65536`, but maps every `s > 65536` to class 23; consequently
classes 19–22 are never selected, and neither is class 17 (its
32768 bound is tested after the larger 40000 bound).  Insertion, deletion
and `find_fit` all share the mapping: `VB.freelist_insert`,
`VB.freelist_delete` (through `VB.listAddrOf`) and `VB.find_fit` are
defined on `VB.list_entry`. -/
theorem c5_class_selection :
    (∀ s, s ≤ 65536 → VB.list_entry s = spec_list_entry s) ∧
    (∀ s, 65536 < s → VB.list_entry s = 23) ∧
    (∀ s, VB.list_entry s ≤ 16 ∨ VB.list_entry s = 18 ∨ VB.list_entry s = 23) :=
  ⟨fun s hs => listEntry_agree_le s hs, fun s hs => listEntry_above s hs,
    fun s => listEntry_range s⟩

/-- Witness for `c5_class_selection` at `s = 100` and `s = 70000`. -/
theorem c5_class_selection_witness :
    ((100 : Nat) ≤ 65536 ∧ VB.list_entry 100 = spec_list_entry 100) ∧
      (65536 < (70000 : Nat) ∧ VB.list_entry 70000 = 23) :=
  ⟨⟨by decide, c5_class_selection.1 100 (by decide)⟩,
    ⟨by decide, c5_class_selection.2.1 70000 (by decide)⟩⟩

/-!
## C8: the initial heap layout
-/

/-- C8 is false as stated for variant A: the claim says `mm_init` requests
`4*WSIZE + heads*WSIZE` bytes with `heads = 1`, i.e. 20 bytes, but the
source requests `mem_sbrk(6*WSIZE)` = 24 bytes (pad, head, one unused
word, prologue header, prologue footer, epilogue). -/
theorem c8_counterexample_init_request :
    VA.initSbrkBytes = 24 ∧ 4 * WSIZE + 1 * WSIZE = 20 ∧
      VA.initSbrkBytes ≠ 4 * WSIZE + 1 * WSIZE := by decide

/-- C8 (amended): variant A's `mm_init` requests `6*WSIZE` bytes (one word
beyond `4*WSIZE + 1*WSIZE`, never written), variant B's requests
`4*WSIZE + 24*WSIZE`; both write the padding word, zero every free-list
head, write the prologue header and footer as `PACK(8,1)`, and write the
initial epilogue with size 0 and alloc 1 (variant B additionally sets its
bit 1, the prologue being allocated), before `extend_heap` runs. -/
theorem c8_init_layout :
    VA.initSbrkBytes = 6 * WSIZE ∧
    VB.initSbrkBytes = 4 * WSIZE + LIST_NUM * WSIZE ∧
    (get32 initPrefixA.mem 8 = 0 ∧ get32 initPrefixA.mem 12 = 0 ∧
      get32 initPrefixA.mem 20 = PACK DSIZE 1 ∧
      get32 initPrefixA.mem 24 = PACK DSIZE 1 ∧
      GET_SIZE initPrefixA.mem 28 = 0 ∧ GET_ALLOC initPrefixA.mem 28 = 1 ∧
      initPrefixA.heap_listp = 24 ∧ initPrefixA.free_listp = 12) ∧
    (get32 initPrefixB.mem 8 = 0 ∧
      ((List.range 24).all fun i => get32 initPrefixB.mem (12 + 4 * i) == 0) = true ∧
      get32 initPrefixB.mem 108 = PACK DSIZE 1 ∧
      get32 initPrefixB.mem 112 = PACK DSIZE 1 ∧
      GET_SIZE initPrefixB.mem 116 = 0 ∧ GET_ALLOC initPrefixB.mem 116 = 1 ∧
      get32 initPrefixB.mem 116 = 3 ∧
      initPrefixB.heap_listp = 112 ∧ initPrefixB.free_listp = 12) := by decide

/-!
## C4: the initial free block planted by `mm_init`
-/

/-- C4 records a genuine bug: the source comments intend the initial free
block to be `CHUNKSIZE` bytes (896 in variant A, 224 in variant B), but
the unparenthesized `CHUNKSIZE` macro makes `CHUNKSIZE/WSIZE` evaluate to
`(1<<9)+(1<<8)+(1<<7)/4 = 800` words (variant A) and
`(1<<8)-(1<<5)/4 = 248` words (variant B), so a successful `mm_init`
plants a free block of 3200 bytes, resp. 992 bytes. -/
theorem c4_init_block_size :
    VA.chunksizeDivWsize = 800 ∧ VB.chunksizeDivWsize = 248 ∧
    initFullA.2 = true ∧
    GET_SIZE initFullA.1.mem 28 = 3200 ∧ GET_ALLOC initFullA.1.mem 28 = 0 ∧
    initFullA.1.len = 8 + 24 + 3200 ∧
    initFullB.2 = true ∧
    GET_SIZE initFullB.1.mem 116 = 992 ∧ GET_ALLOC initFullB.1.mem 116 = 0 ∧
    initFullB.1.len = 8 + 112 + 992 ∧
    ((3200 : Nat) ≠ 896 ∧ (992 : Nat) ≠ 224) := by decide

/-!
## C3: bytes copied by `mm_realloc`
-/

/-- C3 is false as stated: the sources copy
`reallocCopyLen (GET_SIZE (HDRP ptr)) n = min n (old total block size)`
bytes, with no header-overhead subtraction.  On the demo heap the old
block at payload 32 has total size 16 and payload capacity 8 (variant A
spends 8 bytes on header+footer).  The claim's count is
`min 16 (16-8) = 8`; the code copies 16 bytes: after
`mm_realloc demoA 32 16` byte 12 of the new payload (address 60), which
the claim would leave at its prior value 0, holds 25 — copied from
address 44, outside the old payload (it is the new block's own freshly
written header `PACK(24,1)`), so bytes beyond the old payload are read. -/
theorem c3_counterexample_realloc_copy :
    GET_SIZE demoA.mem (HDRP 32) = 16 ∧
    reallocCopyLen 16 16 = 16 ∧ min 16 (16 - 8) = 8 ∧
    reallocDemo.2 = some 48 ∧
    byteAt demoA.mem 60 = 0 ∧ byteAt reallocDemo.1.mem 60 = 25 ∧
    byteAt demoA.mem 44 = 64 := by decide

/-- C3 (amended): `mm_realloc` copies exactly `min n old_size` bytes where
`old_size` is the old block's **total** size (metadata included), so the
first `min n (old payload size)` bytes of the new payload do equal the old
payload's, but up to `DSIZE` further bytes (old footer, successor header)
are read and copied beyond the old payload.  On the demo heap: the old
payload held 1..8; after `mm_realloc demoA 32 16` the new payload starts
with 1..8, then holds the old footer byte 17 and the new header byte 25. -/
theorem c3_realloc_copy :
    (∀ oldsize n, reallocCopyLen oldsize n = min n oldsize) ∧
    (reallocDemo.2 = some 48 ∧
      ((List.range 8).all fun i => byteAt reallocDemo.1.mem (48 + i) ==
        byteAt demoA.mem (32 + i)) = true ∧
      ((List.range 8).all fun i => byteAt reallocDemo.1.mem (48 + i) == i + 1) = true ∧
      byteAt reallocDemo.1.mem 56 = 17 ∧ byteAt reallocDemo.1.mem 60 = 25) := by
  refine ⟨fun oldsize n => ?_, by decide⟩
  simp only [reallocCopyLen]
  split_ifs <;> omega

/-!
## C6: `calloc`
-/

/-- C6 is false as stated: when the allocation fails on a nonzero request
(`16` bytes here, with a substrate capacity of 50 that refuses every
extension), `calloc` does not return null — the source passes the null
pointer straight to `memset(newptr, 0, bytes)`, which the model renders as
the undefined outcome `none` (a defined null return would be
`some (st, none)`). -/
theorem c6_counterexample_calloc :
    4 * 4 ≠ 0 ∧ (VA.mm_malloc (initialSt 50) (4 * 4)).2 = none ∧
      VA.calloc (initialSt 50) 4 4 = none :=
  ⟨by decide, by decide, rfl⟩

/-- C6 (amended): whenever the allocator's own `alloc(count*size)` succeeds
with payload `p`, `calloc count size` returns exactly that payload with the
first `count*size` payload bytes zeroed; when `count*size = 0` (so `alloc`
returns null) it returns null; but when `alloc` fails on a nonzero request
the code passes null to `memset` — undefined behaviour — instead of
returning null.  Both variants. -/
theorem c6_calloc_behavior :
    (∀ st c s p, (VA.mm_malloc st (c * s)).2 = some p →
      VA.calloc st c s =
        some ({ (VA.mm_malloc st (c * s)).1 with
                  mem := memset (VA.mm_malloc st (c * s)).1.mem p 0 (c * s) },
              some p)) ∧
    (∀ st c s, (VA.mm_malloc st (c * s)).2 = none → c * s = 0 →
      VA.calloc st c s = some ((VA.mm_malloc st (c * s)).1, none)) ∧
    (∀ st c s, (VA.mm_malloc st (c * s)).2 = none → c * s ≠ 0 →
      VA.calloc st c s = none) ∧
    (∀ st c s p, (VB.mm_malloc st (c * s)).2 = some p →
      VB.calloc st c s =
        some ({ (VB.mm_malloc st (c * s)).1 with
                  mem := memset (VB.mm_malloc st (c * s)).1.mem p 0 (c * s) },
              some p)) ∧
    (∀ st c s, (VB.mm_malloc st (c * s)).2 = none → c * s = 0 →
      VB.calloc st c s = some ((VB.mm_malloc st (c * s)).1, none)) ∧
    (∀ st c s, (VB.mm_malloc st (c * s)).2 = none → c * s ≠ 0 →
      VB.calloc st c s = none) ∧
    (∀ m a n i, i < n → byteAt (memset m a 0 n) (a + i) = 0) := by
  refine ⟨?_, ?_, ?_, ?_, ?_, ?_, fun m a n i hi => byteAt_memset_zero n m a i hi⟩
  · intro st c s p hp
    simp only [VA.calloc]
    cases hm : VA.mm_malloc st (c * s) with
    | mk st1 r =>
      rw [hm] at hp
      cases r with
      | none => exact absurd hp (by simp)
      | some q => injection hp with hq; subst hq; rfl
  · intro st c s hm0 hz
    simp only [VA.calloc]
    cases hm : VA.mm_malloc st (c * s) with
    | mk st1 r =>
      rw [hm] at hm0
      cases r with
      | none => show (if c * s = 0 then _ else _) = _; rw [if_pos hz]
      | some q => exact absurd hm0 (by simp)
  · intro st c s hm0 hz
    simp only [VA.calloc]
    cases hm : VA.mm_malloc st (c * s) with
    | mk st1 r =>
      rw [hm] at hm0
      cases r with
      | none => show (if c * s = 0 then _ else _) = _; rw [if_neg hz]
      | some q => exact absurd hm0 (by simp)
  · intro st c s p hp
    simp only [VB.calloc]
    cases hm : VB.mm_malloc st (c * s) with
    | mk st1 r =>
      rw [hm] at hp
      cases r with
      | none => exact absurd hp (by simp)
      | some q => injection hp with hq; subst hq; rfl
  · intro st c s hm0 hz
    simp only [VB.calloc]
    cases hm : VB.mm_malloc st (c * s) with
    | mk st1 r =>
      rw [hm] at hm0
      cases r with
      | none => show (if c * s = 0 then _ else _) = _; rw [if_pos hz]
      | some q => exact absurd hm0 (by simp)
  · intro st c s hm0 hz
    simp only [VB.calloc]
    cases hm : VB.mm_malloc st (c * s) with
    | mk st1 r =>
      rw [hm] at hm0
      cases r with
      | none => show (if c * s = 0 then _ else _) = _; rw [if_neg hz]
      | some q => exact absurd hm0 (by simp)

/-- Witness for `c6_calloc_behavior` on the demo heap: `calloc demoA 2 3`
goes through `mm_malloc demoA 6 = some 48` and zeroes 6 bytes at 48. -/
theorem c6_calloc_behavior_witness :
    (VA.mm_malloc demoA (2 * 3)).2 = some 48 ∧
    VA.calloc demoA 2 3 =
      some ({ (VA.mm_malloc demoA (2 * 3)).1 with
                mem := memset (VA.mm_malloc demoA (2 * 3)).1.mem 48 0 (2 * 3) },
            some 48) :=
  ⟨by decide, c6_calloc_behavior.1 demoA 2 3 48 (by decide)⟩

/-!
## C9: `freelist_delete` with independent `if`s
-/

/-- C9: on a block whose links satisfy the layout the link-symmetry
invariant guarantees — the list head word, the predecessor's `next_off`
word (at offset `prev_off` from `heap_listp`) and the successor's
`prev_off` word (at offset `next_off + WSIZE`) all lie outside `bp`'s own
two link words — the four *independent* `if`s of `freelist_delete`
produce exactly the memory of the mutually exclusive `else if` version:
the one branch whose condition held on entry runs, and since none of its
writes touches `GET(bp)` or `GET(bp+WSIZE)`, every later condition still
evaluates to false. -/
theorem c9_delete_independent_ifs (m : Mem) (hl bp la : Nat)
    (hla : AwayFromLinks bp la)
    (hsucc : get32 m bp ≠ 0 → AwayFromLinks bp (get32 m bp + hl + WSIZE))
    (hpred : get32 m (bp + WSIZE) ≠ 0 → AwayFromLinks bp (get32 m (bp + WSIZE) + hl)) :
    deleteIfs m hl bp la = deleteElse m hl bp la := by
  have hW : WSIZE = 4 := rfl
  have stable : ∀ (m' : Mem) (w v : Nat), AwayFromLinks bp w →
      get32 (put32 m' w v) bp = get32 m' bp ∧
        get32 (put32 m' w v) (bp + WSIZE) = get32 m' (bp + WSIZE) := by
    intro m' w v hw
    rcases hw with h | h
    · exact ⟨get32_put32_out _ _ _ _ (Or.inr (by omega)),
        get32_put32_out _ _ _ _ (Or.inr (by omega))⟩
    · exact ⟨get32_put32_out _ _ _ _ (Or.inl (by omega)),
        get32_put32_out _ _ _ _ (Or.inl (by omega))⟩
  by_cases hn : get32 m bp = 0 <;> by_cases hp : get32 m (bp + WSIZE) = 0
  · -- only member of its list: head ← 0
    have s1 := stable m la 0 hla
    have c2 : ¬(get32 (put32 m la 0) bp = 0 ∧ get32 (put32 m la 0) (bp + WSIZE) ≠ 0) :=
      fun h => h.2 (s1.2.trans hp)
    have c3 : ¬(get32 (put32 m la 0) bp ≠ 0 ∧ get32 (put32 m la 0) (bp + WSIZE) = 0) :=
      fun h => h.1 (s1.1.trans hn)
    have c4 : ¬(get32 (put32 m la 0) bp ≠ 0 ∧ get32 (put32 m la 0) (bp + WSIZE) ≠ 0) :=
      fun h => h.1 (s1.1.trans hn)
    have eL : deleteIfs m hl bp la = put32 m la 0 := by
      simp only [deleteIfs]
      simp only [if_pos (⟨hn, hp⟩ : get32 m bp = 0 ∧ get32 m (bp + WSIZE) = 0),
        if_neg c2, if_neg c3, if_neg c4]
    have eR : deleteElse m hl bp la = put32 m la 0 := by
      simp only [deleteElse]
      simp only [if_pos (⟨hn, hp⟩ : get32 m bp = 0 ∧ get32 m (bp + WSIZE) = 0)]
    rw [eL, eR]
  · -- tail of its list: predecessor's next_off ← 0
    have s2 := stable m (get32 m (bp + WSIZE) + hl) 0 (hpred hp)
    have c1 : ¬(get32 m bp = 0 ∧ get32 m (bp + WSIZE) = 0) := fun h => hp h.2
    have c3 : ¬(get32 (put32 m (get32 m (bp + WSIZE) + hl) 0) bp ≠ 0 ∧
        get32 (put32 m (get32 m (bp + WSIZE) + hl) 0) (bp + WSIZE) = 0) :=
      fun h => h.1 (s2.1.trans hn)
    have c4 : ¬(get32 (put32 m (get32 m (bp + WSIZE) + hl) 0) bp ≠ 0 ∧
        get32 (put32 m (get32 m (bp + WSIZE) + hl) 0) (bp + WSIZE) ≠ 0) :=
      fun h => h.1 (s2.1.trans hn)
    have eL : deleteIfs m hl bp la = put32 m (get32 m (bp + WSIZE) + hl) 0 := by
      simp only [deleteIfs]
      simp only [if_neg c1,
        if_pos (⟨hn, hp⟩ : get32 m bp = 0 ∧ get32 m (bp + WSIZE) ≠ 0),
        if_neg c3, if_neg c4]
    have eR : deleteElse m hl bp la = put32 m (get32 m (bp + WSIZE) + hl) 0 := by
      simp only [deleteElse]
      simp only [if_neg c1,
        if_pos (⟨hn, hp⟩ : get32 m bp = 0 ∧ get32 m (bp + WSIZE) ≠ 0)]
    rw [eL, eR]
  · -- head of its list: successor's prev_off ← 0, head ← next_off
    have s3 := stable m (get32 m bp + hl + WSIZE) 0 (hsucc hn)
    have s3' := stable (put32 m (get32 m bp + hl + WSIZE) 0) la (get32 m bp) hla
    have c1 : ¬(get32 m bp = 0 ∧ get32 m (bp + WSIZE) = 0) := fun h => hn h.1
    have c2 : ¬(get32 m bp = 0 ∧ get32 m (bp + WSIZE) ≠ 0) := fun h => hn h.1
    have c4 : ¬(get32 (put32 (put32 m (get32 m bp + hl + WSIZE) 0) la (get32 m bp)) bp ≠ 0 ∧
        get32 (put32 (put32 m (get32 m bp + hl + WSIZE) 0) la (get32 m bp)) (bp + WSIZE) ≠ 0) :=
      fun h => h.2 ((s3'.2.trans s3.2).trans hp)
    have eL : deleteIfs m hl bp la =
        put32 (put32 m (get32 m bp + hl + WSIZE) 0) la (get32 m bp) := by
      simp only [deleteIfs]
      simp only [if_neg c1, if_neg c2,
        if_pos (⟨hn, hp⟩ : get32 m bp ≠ 0 ∧ get32 m (bp + WSIZE) = 0), s3.1, if_neg c4]
    have eR : deleteElse m hl bp la =
        put32 (put32 m (get32 m bp + hl + WSIZE) 0) la (get32 m bp) := by
      simp only [deleteElse]
      simp only [if_neg c1, if_neg c2,
        if_pos (⟨hn, hp⟩ : get32 m bp ≠ 0 ∧ get32 m (bp + WSIZE) = 0)]
    rw [eL, eR]
  · -- interior: predecessor's next_off ← next_off, successor's prev_off ← prev_off
    have s4 := stable m (get32 m bp + hl + WSIZE) (get32 m (bp + WSIZE)) (hsucc hn)
    have c1 : ¬(get32 m bp = 0 ∧ get32 m (bp + WSIZE) = 0) := fun h => hn h.1
    have c2 : ¬(get32 m bp = 0 ∧ get32 m (bp + WSIZE) ≠ 0) := fun h => hn h.1
    have c3 : ¬(get32 m bp ≠ 0 ∧ get32 m (bp + WSIZE) = 0) := fun h => hp h.2
    have eL : deleteIfs m hl bp la =
        put32 (put32 m (get32 m bp + hl + WSIZE) (get32 m (bp + WSIZE)))
          (get32 m (bp + WSIZE) + hl) (get32 m bp) := by
      simp only [deleteIfs]
      simp only [if_neg c1, if_neg c2, if_neg c3,
        if_pos (⟨hn, hp⟩ : get32 m bp ≠ 0 ∧ get32 m (bp + WSIZE) ≠ 0), s4.1, s4.2]
    have eR : deleteElse m hl bp la =
        put32 (put32 m (get32 m bp + hl + WSIZE) (get32 m (bp + WSIZE)))
          (get32 m (bp + WSIZE) + hl) (get32 m bp) := by
      simp only [deleteElse]
      simp only [if_neg c1, if_neg c2, if_neg c3]
    rw [eL, eR]

/-- Witness for `c9_delete_independent_ifs`: an interior deletion on a
concrete three-member list (`heap_listp = 0`; block 16 with
`next_off = 32`, `prev_off = 8`; head word at 0; predecessor's `next_off`
word at 8; successor's `prev_off` word at 36). -/
theorem c9_delete_independent_ifs_witness :
    get32 (put32 (put32 (put32 (put32 (put32 (fun _ => 0) 0 16) 8 16) 16 32) 20 8) 36 16) 16 = 32 ∧
    deleteIfs (put32 (put32 (put32 (put32 (put32 (fun _ => 0) 0 16) 8 16) 16 32) 20 8) 36 16) 0 16 0 =
      deleteElse (put32 (put32 (put32 (put32 (put32 (fun _ => 0) 0 16) 8 16) 16 32) 20 8) 36 16) 0 16 0 :=
  ⟨by decide,
    c9_delete_independent_ifs _ 0 16 0 (Or.inl (by decide)) (fun _ => Or.inr (by decide))
      (fun _ => Or.inl (by decide))⟩


/-!
## State-projection lemmas: the free-list and coalescing code only writes
memory, never the globals
-/

/-- `mem_sbrk` never changes `heap_listp`. -/
theorem memSbrk_heap_listp (st : St) (n : Nat) :
    (memSbrk st n).1.heap_listp = st.heap_listp := by
  unfold memSbrk; split <;> rfl

/-- `freelist_insert` leaves `heap_listp` unchanged (variant A). -/
theorem VA.freelist_insert_heap_listpA (st : St) (bp : Nat) :
    (VA.freelist_insert st bp).heap_listp = st.heap_listp := by
  simp only [VA.freelist_insert]; split_ifs <;> rfl

/-- `freelist_delete` leaves `heap_listp` unchanged (variant A). -/
theorem VA.freelist_delete_heap_listpA (st : St) (bp : Nat) :
    (VA.freelist_delete st bp).heap_listp = st.heap_listp := rfl

/-- `coalesce` leaves `heap_listp` unchanged (variant A). -/
theorem VA.coalesce_heap_listpA (st : St) (bp : Nat) :
    (VA.coalesce st bp).1.heap_listp = st.heap_listp := by
  simp only [VA.coalesce]
  split_ifs <;>
    simp only [VA.freelist_insert_heap_listpA, VA.freelist_delete_heap_listpA]

/-- `extend_heap` leaves `heap_listp` unchanged (variant A). -/
theorem VA.extend_heap_heap_listpA (st : St) (w : Nat) :
    (VA.extend_heap st w).1.heap_listp = st.heap_listp := by
  simp only [VA.extend_heap]
  cases h : memSbrk st (if w % 2 = 1 then (w + 1) * WSIZE else w * WSIZE) with
  | mk st1 p =>
    have h1 : st1.heap_listp = st.heap_listp := by
      have h2 := memSbrk_heap_listp st (if w % 2 = 1 then (w + 1) * WSIZE else w * WSIZE)
      rw [h] at h2; exact h2
    split
    · exact h1
    · rw [VA.coalesce_heap_listpA]; exact h1

/-- `freelist_insert` leaves `heap_listp` unchanged (variant B). -/
theorem VB.freelist_insert_heap_listpB (st : St) (bp : Nat) :
    (VB.freelist_insert st bp).heap_listp = st.heap_listp := by
  simp only [VB.freelist_insert]; split_ifs <;> rfl

/-- `freelist_delete` leaves `heap_listp` unchanged (variant B). -/
theorem VB.freelist_delete_heap_listpB (st : St) (bp : Nat) :
    (VB.freelist_delete st bp).heap_listp = st.heap_listp := rfl

/-- `coalesce` leaves `heap_listp` unchanged (variant B). -/
theorem VB.coalesce_heap_listpB (st : St) (bp : Nat) :
    (VB.coalesce st bp).1.heap_listp = st.heap_listp := by
  simp only [VB.coalesce]
  split_ifs <;>
    simp only [VB.freelist_insert_heap_listpB, VB.freelist_delete_heap_listpB]

/-- `extend_heap` leaves `heap_listp` unchanged (variant B). -/
theorem VB.extend_heap_heap_listpB (st : St) (w : Nat) :
    (VB.extend_heap st w).1.heap_listp = st.heap_listp := by
  simp only [VB.extend_heap]
  cases h : memSbrk st (if w % 2 = 1 then (w + 1) * WSIZE else w * WSIZE) with
  | mk st1 p =>
    have h1 : st1.heap_listp = st.heap_listp := by
      have h2 := memSbrk_heap_listp st (if w % 2 = 1 then (w + 1) * WSIZE else w * WSIZE)
      rw [h] at h2; exact h2
    split
    · exact h1
    · rw [VB.coalesce_heap_listpB]; exact h1

/-- After `mm_init` runs — successfully or not — `heap_listp` is nonzero:
the C code leaves `(void *)-1` in it on a failed first `mem_sbrk`, and
otherwise points it `4*WSIZE` past the region base (`8 + (LIST_NUM+2)*WSIZE`
for variant B), and the later calls never touch it. -/
theorem VA.mm_init_heap_listp_neA (st : St) :
    (VA.mm_init st).1.heap_listp ≠ 0 := by
  simp only [VA.mm_init]
  cases h : memSbrk st VA.initSbrkBytes with
  | mk st1 p =>
    split
    · exact (by decide : (MINUS1 : Nat) ≠ 0)
    · cases he : VA.extend_heap (VA.initWrites st1 p) VA.chunksizeDivWsize with
      | mk st3 r =>
        have h3 : st3.heap_listp = p + 4 * WSIZE := by
          have h4 := VA.extend_heap_heap_listpA (VA.initWrites st1 p) VA.chunksizeDivWsize
          rw [he] at h4; exact h4
        cases r with
        | none => show st3.heap_listp ≠ 0; rw [h3]; simp only [WSIZE]; omega
        | some q => show st3.heap_listp ≠ 0; rw [h3]; simp only [WSIZE]; omega

/-- Variant B's `mm_init` also leaves `heap_listp` nonzero. -/
theorem VB.mm_init_heap_listp_neB (st : St) :
    (VB.mm_init st).1.heap_listp ≠ 0 := by
  simp only [VB.mm_init]
  cases h : memSbrk st VB.initSbrkBytes with
  | mk st1 p =>
    split
    · exact (by decide : (MINUS1 : Nat) ≠ 0)
    · cases he : VB.extend_heap (VB.initWrites st1 p) VB.chunksizeDivWsize with
      | mk st3 r =>
        have h3 : st3.heap_listp = p + (LIST_NUM + 2) * WSIZE := by
          have h4 := VB.extend_heap_heap_listpB (VB.initWrites st1 p) VB.chunksizeDivWsize
          rw [he] at h4; exact h4
        cases r with
        | none => show st3.heap_listp ≠ 0; rw [h3]; simp only [WSIZE, LIST_NUM]; omega
        | some q => show st3.heap_listp ≠ 0; rw [h3]; simp only [WSIZE, LIST_NUM]; omega

/-!
## C10: lazy initialisation in `mm_malloc` and `mm_free`
-/

/-- C10: calling `mm_malloc` while `heap_listp` is still `0` first runs
`mm_init` and then services the request, so a first alloc with no prior
explicit init is exactly init-then-alloc (no success hypothesis is needed:
even a failed `mm_init` leaves `heap_listp ≠ 0`, so the explicit-init side
does not re-run it).  `mm_free` performs the same check: on a nonnull
pointer with `heap_listp = 0` it runs `mm_init` — the resulting state
carries `mm_init`'s globals, since everything after the check only writes
memory.  Both variants. -/
theorem c10_lazy_init :
    (∀ st n, st.heap_listp = 0 →
      VA.mm_malloc st n = VA.mm_malloc (VA.mm_init st).1 n) ∧
    (∀ st bp, st.heap_listp = 0 → bp ≠ 0 →
      (VA.mm_free st bp).heap_listp = (VA.mm_init st).1.heap_listp) ∧
    (∀ st n, st.heap_listp = 0 →
      VB.mm_malloc st n = VB.mm_malloc (VB.mm_init st).1 n) ∧
    (∀ st bp, st.heap_listp = 0 → bp ≠ 0 →
      (VB.mm_free st bp).heap_listp = (VB.mm_init st).1.heap_listp) := by
  refine ⟨fun st n h0 => ?_, fun st bp h0 hbp => ?_,
    fun st n h0 => ?_, fun st bp h0 hbp => ?_⟩
  · simp only [VA.mm_malloc]
    rw [if_pos h0, if_neg (VA.mm_init_heap_listp_neA st)]
  · simp only [VA.mm_free]
    rw [if_neg hbp, if_pos h0, VA.coalesce_heap_listpA]
  · simp only [VB.mm_malloc]
    rw [if_pos h0, if_neg (VB.mm_init_heap_listp_neB st)]
  · simp only [VB.mm_free]
    rw [if_neg hbp, if_pos h0, VB.coalesce_heap_listpB]

/-- Witness for `c10_lazy_init` on the pristine state. -/
theorem c10_lazy_init_witness :
    (initialSt 8000).heap_listp = 0 ∧ (8 : Nat) ≠ 0 ∧
    VA.mm_malloc (initialSt 8000) 1 = VA.mm_malloc (VA.mm_init (initialSt 8000)).1 1 ∧
    (VA.mm_free (initialSt 8000) 8).heap_listp = (VA.mm_init (initialSt 8000)).1.heap_listp ∧
    VB.mm_malloc (initialSt 8000) 1 = VB.mm_malloc (VB.mm_init (initialSt 8000)).1 1 :=
  ⟨rfl, by decide, c10_lazy_init.1 (initialSt 8000) 1 rfl,
    c10_lazy_init.2.1 (initialSt 8000) 8 rfl (by decide),
    c10_lazy_init.2.2.1 (initialSt 8000) 1 rfl⟩

/-!
## C7: null returns and payload alignment of `mm_malloc`
-/

/-- A fitting block returned by the free-list walk is as aligned as the
chain it came from. -/
theorem findAux_aligned :
    ∀ (fuel : Nat) (m : Mem) (hl bp a p : Nat),
      chainAligned fuel m hl bp = true → findAux fuel m hl bp a = some p →
      p % 8 = 0 := by
  intro fuel
  induction fuel with
  | zero => intro m hl bp a p hc _; simp [chainAligned] at hc
  | succ f ih =>
    intro m hl bp a p hc hf
    simp only [chainAligned, Bool.and_eq_true, Bool.or_eq_true, beq_iff_eq] at hc
    simp only [findAux] at hf
    by_cases h1 : GET_SIZE m (HDRP bp) ≥ a
    · rw [if_pos h1] at hf
      injection hf with hf
      subst hf
      exact hc.1
    · rw [if_neg h1] at hf
      by_cases h2 : get32 m bp = 0
      · rw [if_pos h2] at hf; exact absurd hf (by simp)
      · rw [if_neg h2] at hf
        rcases hc.2 with hz | hchain
        · exact absurd hz h2
        · exact ih m hl (get32 m bp + hl) a p hchain hf

/-- `find_block` only returns aligned block pointers when its chain is
empty or aligned. -/
theorem find_block_aligned (fuel : Nat) (m : Mem) (hl la a p : Nat)
    (hc : (get32 m la == 0 || chainAligned fuel m hl (get32 m la + hl)) = true)
    (hf : find_block fuel m hl la a = some p) : p % 8 = 0 := by
  simp only [find_block] at hf
  by_cases h0 : get32 m la = 0
  · rw [if_pos h0] at hf; exact absurd hf (by simp)
  · rw [if_neg h0] at hf
    simp only [Bool.or_eq_true, beq_iff_eq] at hc
    rcases hc with hz | hchain
    · exact absurd hz h0
    · exact findAux_aligned fuel m hl (get32 m la + hl) a p hchain hf

/-- Variant A's `find_fit` only returns aligned block pointers. -/
theorem VA.find_fit_alignedA (st : St) (a p : Nat) (hc : listChainOkA st = true)
    (hf : VA.find_fit st a = some p) : p % 8 = 0 := by
  simp only [listChainOkA] at hc
  exact find_block_aligned st.len st.mem st.heap_listp st.free_listp a p hc hf

/-- Variant B's class loop only returns aligned block pointers. -/
theorem VB.findFitLoop_aligned :
    ∀ (fuel : Nat) (st : St) (entry a p : Nat), listChainsOkB st = true →
      VB.findFitLoop fuel st entry a = some p → p % 8 = 0 := by
  intro fuel
  induction fuel with
  | zero => intro st entry a p _ hf; exact absurd hf (by simp [VB.findFitLoop])
  | succ f ih =>
    intro st entry a p hc hf
    simp only [VB.findFitLoop] at hf
    by_cases he : entry < LIST_NUM
    · rw [if_pos he] at hf
      by_cases hz : get32 st.mem (st.free_listp + WSIZE * entry) = 0
      · rw [if_pos hz] at hf; exact ih st (entry + 1) a p hc hf
      · rw [if_neg hz] at hf
        cases hb : find_block st.len st.mem st.heap_listp
            (st.free_listp + WSIZE * entry) a with
        | some bp =>
          rw [hb] at hf
          injection hf with hf
          subst hf
          have hall : (get32 st.mem (st.free_listp + WSIZE * entry) == 0 ||
              chainAligned st.len st.mem st.heap_listp
                (get32 st.mem (st.free_listp + WSIZE * entry) + st.heap_listp)) = true := by
            simp only [listChainsOkB, List.all_eq_true, List.mem_range] at hc
            exact hc entry he
          exact find_block_aligned _ _ _ _ _ _ hall hb
        | none => rw [hb] at hf; exact ih st (entry + 1) a p hc hf
    · rw [if_neg he] at hf; exact absurd hf (by simp)

/-- Variant B's `find_fit` only returns aligned block pointers. -/
theorem VB.find_fit_alignedB (st : St) (a p : Nat) (hc : listChainsOkB st = true)
    (hf : VB.find_fit st a = some p) : p % 8 = 0 :=
  VB.findFitLoop_aligned LIST_NUM st (VB.list_entry a) a p hc hf

/-- `GET_SIZE` masks the low three bits, so it is always a multiple of 8. -/
theorem GET_SIZE_mod8 (m : Mem) (p : Nat) : GET_SIZE m p % 8 = 0 := by
  unfold GET_SIZE; omega

/-- Stepping to the physical predecessor preserves 8-byte alignment. -/
theorem PREV_BLKP_aligned (m : Mem) (bp : Nat) (h : bp % 8 = 0) :
    PREV_BLKP m bp % 8 = 0 := by
  unfold PREV_BLKP
  have := GET_SIZE_mod8 m (bp - DSIZE)
  omega

/-- `coalesce` returns `bp` or a `PREV_BLKP` of it, so alignment is kept
(variant A). -/
theorem VA.coalesce_ptr_alignedA (st : St) (bp : Nat) (h : bp % 8 = 0) :
    (VA.coalesce st bp).2 % 8 = 0 := by
  simp only [VA.coalesce]
  split_ifs <;> first | exact h | exact PREV_BLKP_aligned _ _ h

/-- `coalesce` keeps alignment (variant B). -/
theorem VB.coalesce_ptr_alignedB (st : St) (bp : Nat) (h : bp % 8 = 0) :
    (VB.coalesce st bp).2 % 8 = 0 := by
  simp only [VB.coalesce]
  split_ifs <;> first | exact h | exact PREV_BLKP_aligned _ _ h

/-- A successful `extend_heap` returns an aligned block pointer: the new
block starts at the old break, `mem_sbrk` amounts are multiples of 8, and
coalescing keeps alignment (variant A). -/
theorem VA.extend_heap_ptr_alignedA (st : St) (w bp : Nat) (hlen : st.len % 8 = 0)
    (he : (VA.extend_heap st w).2 = some bp) : bp % 8 = 0 := by
  simp only [VA.extend_heap] at he
  cases h : memSbrk st (if w % 2 = 1 then (w + 1) * WSIZE else w * WSIZE) with
  | mk st1 p =>
    rw [h] at he
    by_cases hm : p = MINUS1
    · rw [if_pos hm] at he; exact absurd he (by simp)
    · rw [if_neg hm] at he
      have hp : p = st.len := by
        unfold memSbrk at h
        by_cases hle : st.len + (if w % 2 = 1 then (w + 1) * WSIZE else w * WSIZE) ≤ st.limit
        · rw [if_pos hle] at h
          injection h with h1 h2
          exact h2.symm
        · rw [if_neg hle] at h
          injection h with h1 h2
          exact absurd h2.symm hm
      injection he with he
      rw [← he]
      exact VA.coalesce_ptr_alignedA _ _ (by omega)

/-- A successful `extend_heap` returns an aligned block pointer
(variant B). -/
theorem VB.extend_heap_ptr_alignedB (st : St) (w bp : Nat) (hlen : st.len % 8 = 0)
    (he : (VB.extend_heap st w).2 = some bp) : bp % 8 = 0 := by
  simp only [VB.extend_heap] at he
  cases h : memSbrk st (if w % 2 = 1 then (w + 1) * WSIZE else w * WSIZE) with
  | mk st1 p =>
    rw [h] at he
    by_cases hm : p = MINUS1
    · rw [if_pos hm] at he; exact absurd he (by simp)
    · rw [if_neg hm] at he
      have hp : p = st.len := by
        unfold memSbrk at h
        by_cases hle : st.len + (if w % 2 = 1 then (w + 1) * WSIZE else w * WSIZE) ≤ st.limit
        · rw [if_pos hle] at h
          injection h with h1 h2
          exact h2.symm
        · rw [if_neg hle] at h
          injection h with h1 h2
          exact absurd h2.symm hm
      injection he with he
      rw [← he]
      exact VB.coalesce_ptr_alignedB _ _ (by omega)

/-- On an initialised state, variant A's `mm_malloc` returns null exactly
for a zero request or a refused needed extension. -/
theorem VA.malloc_none_iffA (st : St) (n : Nat) (h0 : st.heap_listp ≠ 0) :
    (VA.mm_malloc st n).2 = none ↔ n = 0 ∨ extensionRefusedA st n := by
  simp only [VA.mm_malloc]
  rw [if_neg h0]
  simp only [VA.mallocBody]
  by_cases hz : n = 0
  · rw [if_pos hz]; simp [hz]
  · rw [if_neg hz]
    cases hf : VA.find_fit st (VA.asize n) with
    | some bp => simp [extensionRefusedA, hf, hz]
    | none =>
      cases he : VA.extend_heap st (max (VA.asize n) VA.CHUNKSIZE / WSIZE) with
      | mk st1 r =>
        cases r with
        | none => simp [extensionRefusedA, hf, he, hz]
        | some bp => simp [extensionRefusedA, hf, he, hz]

/-- On an initialised state, variant B's `mm_malloc` returns null exactly
for a zero request or a refused needed extension. -/
theorem VB.malloc_none_iffB (st : St) (n : Nat) (h0 : st.heap_listp ≠ 0) :
    (VB.mm_malloc st n).2 = none ↔ n = 0 ∨ extensionRefusedB st n := by
  simp only [VB.mm_malloc]
  rw [if_neg h0]
  simp only [VB.mallocBody]
  by_cases hz : n = 0
  · rw [if_pos hz]; simp [hz]
  · rw [if_neg hz]
    cases hf : VB.find_fit st (VB.asize n) with
    | some bp => simp [extensionRefusedB, hf, hz]
    | none =>
      cases he : VB.extend_heap st (max (VB.asize n) VB.CHUNKSIZE / WSIZE) with
      | mk st1 r =>
        cases r with
        | none => simp [extensionRefusedB, hf, he, hz]
        | some bp => simp [extensionRefusedB, hf, he, hz]

/-- Every non-null payload variant A's `mm_malloc` returns is 8-aligned. -/
theorem VA.malloc_some_alignedA (st : St) (n p : Nat) (h0 : st.heap_listp ≠ 0)
    (hlen : st.len % 8 = 0) (hc : listChainOkA st = true)
    (hm : (VA.mm_malloc st n).2 = some p) : p % 8 = 0 := by
  simp only [VA.mm_malloc] at hm
  rw [if_neg h0] at hm
  simp only [VA.mallocBody] at hm
  by_cases hz : n = 0
  · rw [if_pos hz] at hm; exact absurd hm (by simp)
  · rw [if_neg hz] at hm
    cases hf : VA.find_fit st (VA.asize n) with
    | some bp =>
      rw [hf] at hm
      injection hm with hm
      exact hm ▸ VA.find_fit_alignedA st (VA.asize n) bp hc hf
    | none =>
      rw [hf] at hm
      cases he : VA.extend_heap st (max (VA.asize n) VA.CHUNKSIZE / WSIZE) with
      | mk st1 r =>
        rw [he] at hm
        cases r with
        | none => exact absurd hm (by simp)
        | some bp =>
          injection hm with hm
          exact hm ▸ VA.extend_heap_ptr_alignedA st _ bp hlen (by rw [he])

/-- Every non-null payload variant B's `mm_malloc` returns is 8-aligned. -/
theorem VB.malloc_some_alignedB (st : St) (n p : Nat) (h0 : st.heap_listp ≠ 0)
    (hlen : st.len % 8 = 0) (hc : listChainsOkB st = true)
    (hm : (VB.mm_malloc st n).2 = some p) : p % 8 = 0 := by
  simp only [VB.mm_malloc] at hm
  rw [if_neg h0] at hm
  simp only [VB.mallocBody] at hm
  by_cases hz : n = 0
  · rw [if_pos hz] at hm; exact absurd hm (by simp)
  · rw [if_neg hz] at hm
    cases hf : VB.find_fit st (VB.asize n) with
    | some bp =>
      rw [hf] at hm
      injection hm with hm
      exact hm ▸ VB.find_fit_alignedB st (VB.asize n) bp hc hf
    | none =>
      rw [hf] at hm
      cases he : VB.extend_heap st (max (VB.asize n) VB.CHUNKSIZE / WSIZE) with
      | mk st1 r =>
        rw [he] at hm
        cases r with
        | none => exact absurd hm (by simp)
        | some bp =>
          injection hm with hm
          exact hm ▸ VB.extend_heap_ptr_alignedB st _ bp hlen (by rw [he])

/-- C7: on an initialised state (`heap_listp ≠ 0`), `mm_malloc n` returns
null exactly when `n = 0` or no free block fits and the substrate refuses
the extension `mm_malloc` then requests; and on a state whose break is
8-aligned and whose free-list chains are aligned (true of every state the
allocator itself builds: the heap base is 8-aligned and all block sizes
are multiples of 8), every non-null payload pointer is 8-byte aligned.
Both variants. -/
theorem c7_malloc_null_and_alignment :
    (∀ st n, st.heap_listp ≠ 0 →
      ((VA.mm_malloc st n).2 = none ↔ n = 0 ∨ extensionRefusedA st n)) ∧
    (∀ st n p, st.heap_listp ≠ 0 → st.len % 8 = 0 → listChainOkA st = true →
      (VA.mm_malloc st n).2 = some p → p % 8 = 0) ∧
    (∀ st n, st.heap_listp ≠ 0 →
      ((VB.mm_malloc st n).2 = none ↔ n = 0 ∨ extensionRefusedB st n)) ∧
    (∀ st n p, st.heap_listp ≠ 0 → st.len % 8 = 0 → listChainsOkB st = true →
      (VB.mm_malloc st n).2 = some p → p % 8 = 0) :=
  ⟨fun st n h0 => VA.malloc_none_iffA st n h0,
    fun st n p h0 hlen hc hm => VA.malloc_some_alignedA st n p h0 hlen hc hm,
    fun st n h0 => VB.malloc_none_iffB st n h0,
    fun st n p h0 hlen hc hm => VB.malloc_some_alignedB st n p h0 hlen hc hm⟩

/-- Witness for `c7_malloc_null_and_alignment` on the demo heaps. -/
theorem c7_malloc_null_and_alignment_witness :
    demoA.heap_listp ≠ 0 ∧ demoA.len % 8 = 0 ∧ listChainOkA demoA = true ∧
    (VA.mm_malloc demoA 8).2 = some 48 ∧ (48 : Nat) % 8 = 0 ∧
    demoB.heap_listp ≠ 0 ∧ demoB.len % 8 = 0 ∧ listChainsOkB demoB = true ∧
    (VB.mm_malloc demoB 8).2 = some 120 ∧ (120 : Nat) % 8 = 0 ∧
    ((VA.mm_malloc demoA 0).2 = none ↔ (0 = 0 ∨ extensionRefusedA demoA 0)) :=
  ⟨by decide, by decide, by decide, by decide,
    c7_malloc_null_and_alignment.2.1 demoA 8 48 (by decide) (by decide)
      (by decide) (by decide),
    by decide, by decide, by decide, by decide,
    c7_malloc_null_and_alignment.2.2.2 demoB 8 120 (by decide) (by decide)
      (by decide) (by decide),
    c7_malloc_null_and_alignment.1 demoA 0 (by decide)⟩

/-!
## C1: no two adjacent free blocks — variant A block lemmas
-/

/-- Unfolding `noAdjFree` one block at a time. -/
theorem noAdjFree_cons (b : Blk) (r : List Blk) :
    noAdjFree (b :: r) = true ↔
      (b.alloc = true ∨ headAllocD r = true) ∧ noAdjFree r = true := by
  cases r with
  | nil => simp [noAdjFree, headAllocD]
  | cons n r' =>
    simp only [noAdjFree, headAllocD, Bool.and_eq_true, Bool.or_eq_true]
    try tauto

/-- `noAdjFree` over an append: both parts plus the boundary pair. -/
theorem noAdjFree_append (xs : List Blk) : ∀ ys,
    noAdjFree (xs ++ ys) = true ↔
      noAdjFree xs = true ∧ noAdjFree ys = true ∧
        (lastAllocD xs = true ∨ headAllocD ys = true) := by
  induction xs with
  | nil => intro ys; simp [noAdjFree, lastAllocD]
  | cons x t ih =>
    intro ys
    cases t with
    | nil =>
      cases ys with
      | nil => simp [noAdjFree, lastAllocD, headAllocD]
      | cons y ys' =>
        simp only [List.cons_append, List.nil_append, noAdjFree, lastAllocD,
          headAllocD, Bool.and_eq_true, Bool.or_eq_true]
        try tauto
    | cons x2 t2 =>
      have hstep : noAdjFree ((x :: x2 :: t2) ++ ys) =
          ((x.alloc || x2.alloc) && noAdjFree ((x2 :: t2) ++ ys)) := rfl
      have hnaf : noAdjFree (x :: x2 :: t2) =
          ((x.alloc || x2.alloc) && noAdjFree (x2 :: t2)) := rfl
      have hlast : lastAllocD (x :: x2 :: t2) = lastAllocD (x2 :: t2) := rfl
      rw [hstep, Bool.and_eq_true, ih ys, hnaf, hlast, Bool.and_eq_true]
      tauto

/-- The last block of `ys ++ [x]` is `x` (so reversal swaps ends). -/
theorem lastAllocD_concat : ∀ (ys : List Blk) (x : Blk),
    lastAllocD (ys ++ [x]) = x.alloc := by
  intro ys
  induction ys with
  | nil => intro x; rfl
  | cons y t ih =>
    intro x
    cases t with
    | nil => rfl
    | cons a b =>
      show lastAllocD ((a :: b) ++ [x]) = x.alloc
      exact ih x

/-- `lastAllocD` of a reversal is `headAllocD` of the original. -/
theorem lastAllocD_reverse (l : List Blk) :
    lastAllocD l.reverse = headAllocD l := by
  cases l with
  | nil => rfl
  | cons x t =>
    rw [List.reverse_cons, lastAllocD_concat]
    rfl

/-- `noAdjFree` across a zipper: both sides plus both boundary pairs. -/
theorem glue_noAdj (l : List Blk) (b : Blk) (r : List Blk) :
    noAdjFree (glue l b r) = true ↔
      noAdjFree l.reverse = true ∧ (headAllocD l = true ∨ b.alloc = true) ∧
        (b.alloc = true ∨ headAllocD r = true) ∧ noAdjFree r = true := by
  unfold glue
  rw [noAdjFree_append l.reverse (b :: r), lastAllocD_reverse, noAdjFree_cons]
  constructor
  · rintro ⟨h1, ⟨h2, h3⟩, h4⟩
    exact ⟨h1, by tauto, h2, h3⟩
  · rintro ⟨h1, h2, h3, h4⟩
    exact ⟨h1, ⟨h3, h4⟩, by tauto⟩

/-- Peeling the physically previous block off the left context. -/
theorem revCons_noAdj (p : Blk) (l' : List Blk) :
    noAdjFree ((p :: l').reverse) = true ↔
      noAdjFree l'.reverse = true ∧ (headAllocD l' = true ∨ p.alloc = true) := by
  rw [List.reverse_cons, noAdjFree_append l'.reverse [p], lastAllocD_reverse]
  simp [noAdjFree, headAllocD]

/-- `mm_free` at the block level preserves the adjacency invariant, in all
four `coalesce` cases. -/
theorem freeAt_noAdj (l : List Blk) (b : Blk) (r : List Blk)
    (h : noAdjFree (glue l b r) = true) : noAdjFree (freeAt l b r) = true := by
  rw [glue_noAdj] at h
  obtain ⟨hl, hlb, hbr, hr⟩ := h
  cases l with
  | nil =>
    cases r with
    | nil => rfl
    | cons n r' =>
      rw [noAdjFree_cons] at hr
      cases hn : n.alloc with
      | true =>
        -- case 1 against the left sentinel
        simp [freeAt, coalesceL, hn]
        rw [glue_noAdj]
        exact ⟨rfl, Or.inl rfl, Or.inr hn, by rw [noAdjFree_cons]; exact hr⟩
      | false =>
        -- case 2: absorb the free right neighbour
        simp [freeAt, coalesceL, hn]
        rw [glue_noAdj]
        refine ⟨rfl, Or.inl rfl, ?_, hr.2⟩
        rcases hr.1 with h | h
        · rw [hn] at h; exact absurd h (by simp)
        · exact Or.inr h
  | cons p l' =>
    rw [revCons_noAdj] at hl
    cases r with
    | nil =>
      cases hp : p.alloc with
      | true =>
        simp [freeAt, coalesceL, hp]
        rw [glue_noAdj]
        exact ⟨by rw [revCons_noAdj]; exact hl, Or.inl hp, Or.inr rfl, rfl⟩
      | false =>
        -- case 3 against the right sentinel
        simp [freeAt, coalesceL, hp]
        rw [glue_noAdj]
        refine ⟨hl.1, ?_, Or.inr rfl, rfl⟩
        rcases hl.2 with h | h
        · exact Or.inl h
        · rw [hp] at h; exact absurd h (by simp)
    | cons n r' =>
      rw [noAdjFree_cons] at hr
      cases hp : p.alloc with
      | true =>
        cases hn : n.alloc with
        | true =>
          -- case 1: both neighbours allocated
          simp [freeAt, coalesceL, hp, hn]
          rw [glue_noAdj]
          exact ⟨by rw [revCons_noAdj]; exact hl, Or.inl hp, Or.inr hn,
            by rw [noAdjFree_cons]; exact hr⟩
        | false =>
          -- case 2: free right neighbour
          simp [freeAt, coalesceL, hp, hn]
          rw [glue_noAdj]
          refine ⟨by rw [revCons_noAdj]; exact hl, Or.inl hp, ?_, hr.2⟩
          rcases hr.1 with h | h
          · rw [hn] at h; exact absurd h (by simp)
          · exact Or.inr h
      | false =>
        cases hn : n.alloc with
        | true =>
          -- case 3: free left neighbour
          simp [freeAt, coalesceL, hp, hn]
          rw [glue_noAdj]
          refine ⟨hl.1, ?_, Or.inr hn, by rw [noAdjFree_cons]; exact hr⟩
          rcases hl.2 with h | h
          · exact Or.inl h
          · rw [hp] at h; exact absurd h (by simp)
        | false =>
          -- case 4: both neighbours free
          simp [freeAt, coalesceL, hp, hn]
          rw [glue_noAdj]
          refine ⟨hl.1, ?_, ?_, hr.2⟩
          · rcases hl.2 with h | h
            · exact Or.inl h
            · rw [hp] at h; exact absurd h (by simp)
          · rcases hr.1 with h | h
            · rw [hn] at h; exact absurd h (by simp)
            · exact Or.inr h

/-- `place` at the block level preserves the adjacency invariant when the
placed block is free (it is: `find_fit` picks it off a free list). -/
theorem placeAt_noAdj (l : List Blk) (b : Blk) (r : List Blk) (a : Nat)
    (h : noAdjFree (glue l b r) = true) (hb : b.alloc = false) :
    noAdjFree (placeAt l b r a) = true := by
  rw [glue_noAdj] at h
  obtain ⟨hl, hlb, hbr, hr⟩ := h
  unfold placeAt
  split_ifs with hs
  · rw [glue_noAdj]
    refine ⟨hl, Or.inr rfl, Or.inl rfl, ?_⟩
    rw [noAdjFree_cons]
    refine ⟨?_, hr⟩
    rcases hbr with h | h
    · rw [hb] at h; exact absurd h (by simp)
    · exact Or.inr h
  · rw [glue_noAdj]
    exact ⟨hl, Or.inr rfl, Or.inl rfl, hr⟩

/-- The focus returned by `coalesceL` is free whenever the input focus is. -/
theorem coalesceL_focus_free (l : List Blk) (b : Blk) (r : List Blk)
    (hb : b.alloc = false) : (coalesceL l b r).2.1.alloc = false := by
  cases l <;> cases r <;> simp only [coalesceL] <;>
    first
    | exact hb
    | (split_ifs <;> first | exact hb | rfl)

/-- The extension path of `mm_malloc` preserves the adjacency invariant:
appending the new block after an allocated-or-sentinel tail keeps the
invariant, and the coalesce-then-place pipeline is `freeAt` followed by
`placeAt`. -/
theorem mallocGrow_noAdj (h : List Blk) (a sz : Nat)
    (hh : noAdjFree h = true) : noAdjFree (mallocGrow h a sz) = true := by
  have h1 : noAdjFree (glue h.reverse ⟨sz, true⟩ []) = true := by
    rw [glue_noAdj]
    refine ⟨?_, Or.inr rfl, Or.inl rfl, rfl⟩
    rw [List.reverse_reverse]
    exact hh
  have h2 : noAdjFree (freeAt h.reverse ⟨sz, true⟩ []) = true :=
    freeAt_noAdj h.reverse ⟨sz, true⟩ [] h1
  have h3 : (coalesceL h.reverse ⟨sz, false⟩ []).2.1.alloc = false :=
    coalesceL_focus_free h.reverse ⟨sz, false⟩ [] rfl
  exact placeAt_noAdj _ _ _ a h2 h3

/-- Every variant-A reachable heap satisfies the adjacency invariant. -/
theorem ReachA_noAdj : ∀ h, ReachA h → noAdjFree h = true := by
  intro h hr
  induction hr with
  | init sz => rfl
  | mallocFit l b r a _ hb ih => exact placeAt_noAdj l b r a ih hb
  | mallocGrow h0 a sz _ ih => exact mallocGrow_noAdj h0 a sz ih
  | freeBlk l b r _ _ ih => exact freeAt_noAdj l b r ih

/-!
## C1: variant B block lemmas (bit 1 tracking included)
-/

/-- Unfolding `noAdjFreeB` one block at a time. -/
theorem noAdjFreeB_cons (b : BlkB) (r : List BlkB) :
    noAdjFreeB (b :: r) = true ↔
      (b.alloc = true ∨ headAllocB r = true) ∧ noAdjFreeB r = true := by
  cases r with
  | nil => simp [noAdjFreeB, headAllocB]
  | cons n r' =>
    simp only [noAdjFreeB, headAllocB, Bool.and_eq_true, Bool.or_eq_true]
    try tauto

/-- `noAdjFreeB` over an append. -/
theorem noAdjFreeB_append (xs : List BlkB) : ∀ ys,
    noAdjFreeB (xs ++ ys) = true ↔
      noAdjFreeB xs = true ∧ noAdjFreeB ys = true ∧
        (lastAllocB true xs = true ∨ headAllocB ys = true) := by
  induction xs with
  | nil => intro ys; simp [noAdjFreeB, lastAllocB]
  | cons x t ih =>
    intro ys
    cases t with
    | nil =>
      cases ys with
      | nil => simp [noAdjFreeB, lastAllocB, headAllocB]
      | cons y ys' =>
        simp only [List.cons_append, List.nil_append, noAdjFreeB, lastAllocB,
          headAllocB, Bool.and_eq_true, Bool.or_eq_true]
        try tauto
    | cons x2 t2 =>
      have hstep : noAdjFreeB ((x :: x2 :: t2) ++ ys) =
          ((x.alloc || x2.alloc) && noAdjFreeB ((x2 :: t2) ++ ys)) := rfl
      have hnaf : noAdjFreeB (x :: x2 :: t2) =
          ((x.alloc || x2.alloc) && noAdjFreeB (x2 :: t2)) := rfl
      have hlast : lastAllocB true (x :: x2 :: t2) = lastAllocB true (x2 :: t2) := rfl
      rw [hstep, Bool.and_eq_true, ih ys, hnaf, hlast, Bool.and_eq_true]
      tauto

/-- The carried last-allocation bit of `ys ++ [x]` is `x`'s. -/
theorem lastAllocB_concat : ∀ (ys : List BlkB) (prev : Bool) (x : BlkB),
    lastAllocB prev (ys ++ [x]) = x.alloc := by
  intro ys
  induction ys with
  | nil => intro prev x; rfl
  | cons y t ih =>
    intro prev x
    show lastAllocB y.alloc (t ++ [x]) = x.alloc
    exact ih y.alloc x

/-- The carried last-allocation bit composes over appends. -/
theorem lastAllocB_append : ∀ (xs ys : List BlkB) (prev : Bool),
    lastAllocB prev (xs ++ ys) = lastAllocB (lastAllocB prev xs) ys := by
  intro xs
  induction xs with
  | nil => intro ys prev; rfl
  | cons x t ih =>
    intro ys prev
    show lastAllocB x.alloc (t ++ ys) = _
    exact ih ys x.alloc

/-- Last allocation of a reversal is the head allocation. -/
theorem lastAllocB_true_reverse (l : List BlkB) :
    lastAllocB true l.reverse = headAllocB l := by
  cases l with
  | nil => rfl
  | cons x t =>
    rw [List.reverse_cons, lastAllocB_concat]
    rfl

/-- Head allocation of a reversal is the last allocation. -/
theorem headAllocB_reverse (xs : List BlkB) :
    headAllocB xs.reverse = lastAllocB true xs := by
  have h := lastAllocB_true_reverse xs.reverse
  rw [List.reverse_reverse] at h
  exact h.symm

/-- Unfolding `bitsChain` one block at a time. -/
theorem bitsChain_cons (prev : Bool) (b : BlkB) (t : List BlkB) :
    bitsChain prev (b :: t) = true ↔
      b.prevBit = prev ∧ bitsChain b.alloc t = true := by
  simp [bitsChain, Bool.and_eq_true]

/-- `bitsChain` over an append: the carry crosses the boundary. -/
theorem bitsChain_append (xs : List BlkB) : ∀ (ys : List BlkB) (prev : Bool),
    bitsChain prev (xs ++ ys) = true ↔
      bitsChain prev xs = true ∧ bitsChain (lastAllocB prev xs) ys = true := by
  induction xs with
  | nil => intro ys prev; simp [bitsChain, lastAllocB]
  | cons x t ih =>
    intro ys prev
    have hstep : bitsChain prev ((x :: t) ++ ys) =
        ((x.prevBit == prev) && bitsChain x.alloc (t ++ ys)) := rfl
    have hc : bitsChain prev (x :: t) =
        ((x.prevBit == prev) && bitsChain x.alloc t) := rfl
    have hlast : lastAllocB prev (x :: t) = lastAllocB x.alloc t := rfl
    rw [hstep, Bool.and_eq_true, ih ys x.alloc, hc, hlast, Bool.and_eq_true]
    tauto

/-- The full variant-B invariant across a zipper. -/
theorem glueB_inv (l : List BlkB) (b : BlkB) (r : List BlkB) (epi : Bool) :
    InvB ⟨glueB l b r, epi⟩ = true ↔
      (noAdjFreeB l.reverse = true ∧ (headAllocB l = true ∨ b.alloc = true) ∧
        (b.alloc = true ∨ headAllocB r = true) ∧ noAdjFreeB r = true) ∧
      (bitsChain true l.reverse = true ∧ b.prevBit = headAllocB l ∧
        bitsChain b.alloc r = true) ∧
      epi = lastAllocB b.alloc r := by
  have hlcons : ∀ q : Bool, lastAllocB q (b :: r) = lastAllocB b.alloc r :=
    fun q => rfl
  simp only [InvB, Bool.and_eq_true, beq_iff_eq]
  unfold glueB
  rw [noAdjFreeB_append l.reverse (b :: r), noAdjFreeB_cons,
    lastAllocB_true_reverse, bitsChain_append l.reverse (b :: r) true,
    bitsChain_cons, lastAllocB_true_reverse, lastAllocB_append,
    lastAllocB_true_reverse, hlcons]
  tauto

/-- Peeling the previous block off the left context (adjacency). -/
theorem revConsB_noAdj (p : BlkB) (l' : List BlkB) :
    noAdjFreeB ((p :: l').reverse) = true ↔
      noAdjFreeB l'.reverse = true ∧ (headAllocB l' = true ∨ p.alloc = true) := by
  rw [List.reverse_cons, noAdjFreeB_append l'.reverse [p], lastAllocB_true_reverse]
  simp [noAdjFreeB, headAllocB]

/-- Peeling the previous block off the left context (bit chain). -/
theorem revConsB_bits (p : BlkB) (l' : List BlkB) :
    bitsChain true ((p :: l').reverse) = true ↔
      bitsChain true l'.reverse = true ∧ p.prevBit = headAllocB l' := by
  rw [List.reverse_cons, bitsChain_append l'.reverse [p] true,
    lastAllocB_true_reverse]
  simp [bitsChain, Bool.and_eq_true]

/-- The adjacency audit ignores the head's bit 1. -/
theorem noAdjFreeB_bitIrrel (n : BlkB) (bb : Bool) (r' : List BlkB) :
    noAdjFreeB (⟨n.size, n.alloc, bb⟩ :: r') = noAdjFreeB (n :: r') := by
  cases r' <;> rfl

/-- The merged focus of variant-B coalescing is free whenever the input
focus is. -/
theorem coalesceB_focus_free (l : List BlkB) (b : BlkB) (r : List BlkB)
    (hb : b.alloc = false) : (coalesceB l b r).2.1.alloc = false := by
  cases l <;> cases r <;> simp only [coalesceB, headAllocB] <;>
    first
      | exact hb
      | (split_ifs <;> first | exact hb | rfl)

/-- Variant B's `mm_free` preserves the invariant (no adjacent free pair
and accurate bit 1 everywhere), covering all four coalescing cases. -/
theorem freeAtB_inv (l : List BlkB) (b : BlkB) (r : List BlkB) (epi : Bool)
    (h : InvB ⟨glueB l b r, epi⟩ = true) : InvB (freeAtB l b r epi) = true := by
  rw [glueB_inv] at h
  obtain ⟨⟨hadjl, hlb, hbr, hadjr⟩, ⟨hcl, hpb, hcr⟩, hepi⟩ := h
  cases hpbv : b.prevBit with
  | true =>
    have hl : headAllocB l = true := by rw [← hpb]; exact hpbv
    cases r with
    | nil =>
      simp [freeAtB, clearNextBit, coalesceB, headAllocB, hpbv]
      rw [glueB_inv]
      exact ⟨⟨hadjl, Or.inl hl, Or.inr rfl, rfl⟩, ⟨hcl, hl.symm, rfl⟩, rfl⟩
    | cons n r' =>
      cases hn : n.alloc with
      | true =>
        simp [freeAtB, clearNextBit, coalesceB, headAllocB, hpbv, hn]
        rw [glueB_inv]
        refine ⟨⟨hadjl, Or.inl hl, Or.inr rfl, ?_⟩, ⟨hcl, hl.symm, ?_⟩, ?_⟩
        · rw [noAdjFreeB_cons] at hadjr ⊢
          exact ⟨Or.inl rfl, hadjr.2⟩
        · rw [bitsChain_cons] at hcr ⊢
          refine ⟨rfl, ?_⟩
          have h2 := hcr.2
          rw [hn] at h2
          exact h2
        · have h2 : epi = lastAllocB n.alloc r' := hepi
          rw [hn] at h2
          exact h2
      | false =>
        simp [freeAtB, clearNextBit, coalesceB, headAllocB, hpbv, hn]
        rw [glueB_inv]
        refine ⟨⟨hadjl, Or.inl hl, ?_, ?_⟩, ⟨hcl, hl.symm, ?_⟩, ?_⟩
        · rw [noAdjFreeB_cons] at hadjr
          exact Or.inr (hadjr.1.resolve_left (by simp [hn]))
        · rw [noAdjFreeB_cons] at hadjr
          exact hadjr.2
        · rw [bitsChain_cons] at hcr
          have h2 := hcr.2
          rw [hn] at h2
          exact h2
        · have h2 : epi = lastAllocB n.alloc r' := hepi
          rw [hn] at h2
          exact h2
  | false =>
    have hl0 : headAllocB l = false := by rw [← hpb]; exact hpbv
    cases l with
    | nil => simp [headAllocB] at hl0
    | cons p l' =>
      have hpa : p.alloc = false := hl0
      rw [revConsB_noAdj] at hadjl
      rw [revConsB_bits] at hcl
      obtain ⟨hadjl2, hpl⟩ := hadjl
      obtain ⟨hcl2, hppb⟩ := hcl
      have hl2 : headAllocB l' = true := hpl.resolve_right (by simp [hpa])
      have hpp : p.prevBit = true := by rw [hppb]; exact hl2
      cases r with
      | nil =>
        simp [freeAtB, clearNextBit, coalesceB, headAllocB, hpbv, hpp]
        rw [glueB_inv]
        exact ⟨⟨hadjl2, Or.inl hl2, Or.inr rfl, rfl⟩, ⟨hcl2, hl2.symm, rfl⟩, rfl⟩
      | cons n r' =>
        cases hn : n.alloc with
        | true =>
          simp [freeAtB, clearNextBit, coalesceB, headAllocB, hpbv, hpp, hn]
          rw [glueB_inv]
          refine ⟨⟨hadjl2, Or.inl hl2, Or.inr rfl, ?_⟩, ⟨hcl2, hl2.symm, ?_⟩, ?_⟩
          · rw [noAdjFreeB_cons] at hadjr ⊢
            exact ⟨Or.inl rfl, hadjr.2⟩
          · rw [bitsChain_cons] at hcr ⊢
            refine ⟨rfl, ?_⟩
            have h2 := hcr.2
            rw [hn] at h2
            exact h2
          · have h2 : epi = lastAllocB n.alloc r' := hepi
            rw [hn] at h2
            exact h2
        | false =>
          simp [freeAtB, clearNextBit, coalesceB, headAllocB, hpbv, hpp, hn]
          rw [glueB_inv]
          refine ⟨⟨hadjl2, Or.inl hl2, ?_, ?_⟩, ⟨hcl2, hl2.symm, ?_⟩, ?_⟩
          · rw [noAdjFreeB_cons] at hadjr
            exact Or.inr (hadjr.1.resolve_left (by simp [hn]))
          · rw [noAdjFreeB_cons] at hadjr
            exact hadjr.2
          · rw [bitsChain_cons] at hcr
            have h2 := hcr.2
            rw [hn] at h2
            exact h2
          · have h2 : epi = lastAllocB n.alloc r' := hepi
            rw [hn] at h2
            exact h2

/-- Variant B's `place` preserves the invariant, with and without split. -/
theorem placeAtB_inv (l : List BlkB) (b : BlkB) (r : List BlkB) (epi : Bool)
    (a : Nat) (h : InvB ⟨glueB l b r, epi⟩ = true) (hb : b.alloc = false) :
    InvB (placeAtB l b r epi a) = true := by
  rw [glueB_inv] at h
  obtain ⟨⟨hadjl, hlb, hbr, hadjr⟩, ⟨hcl, hpb, hcr⟩, hepi⟩ := h
  by_cases hs : b.size - a ≥ 2 * DSIZE
  · cases r with
    | nil =>
      simp [placeAtB, clearNextBit, if_pos hs]
      rw [glueB_inv]
      exact ⟨⟨hadjl, Or.inr rfl, Or.inl rfl, rfl⟩, ⟨hcl, hpb, rfl⟩, rfl⟩
    | cons n r' =>
      simp [placeAtB, clearNextBit, if_pos hs]
      rw [glueB_inv]
      have hna : n.alloc = true := by
        rcases hbr with hbr | hbr
        · rw [hb] at hbr
          exact absurd hbr (by decide)
        · exact hbr
      rw [bitsChain_cons] at hcr
      refine ⟨⟨hadjl, Or.inr rfl, Or.inl rfl, ?_⟩, ⟨hcl, hpb, ?_⟩, ?_⟩
      · rw [noAdjFreeB_cons]
        refine ⟨Or.inr ?_, ?_⟩
        · exact hna
        · rw [noAdjFreeB_bitIrrel]
          exact hadjr
      · rw [bitsChain_cons]
        refine ⟨rfl, ?_⟩
        rw [bitsChain_cons]
        exact ⟨rfl, hcr.2⟩
      · exact hepi
  · cases r with
    | nil =>
      simp [placeAtB, setNextBit, if_neg hs]
      rw [glueB_inv]
      exact ⟨⟨hadjl, Or.inr rfl, Or.inl rfl, rfl⟩, ⟨hcl, hpb, rfl⟩, rfl⟩
    | cons n r' =>
      simp [placeAtB, setNextBit, if_neg hs]
      rw [glueB_inv]
      rw [bitsChain_cons] at hcr
      refine ⟨⟨hadjl, Or.inr rfl, Or.inl rfl, ?_⟩, ⟨hcl, hpb, ?_⟩, ?_⟩
      · rw [noAdjFreeB_bitIrrel]
        exact hadjr
      · rw [bitsChain_cons]
        exact ⟨rfl, hcr.2⟩
      · exact hepi

/-- Variant B's no-fit `mm_malloc` path preserves the invariant: the
extension is freeing a fresh allocated block appended past the old
epilogue, then placing in the coalescing result. -/
theorem mallocGrowB_inv (h : HeapB) (a sz : Nat) (hi : InvB h = true) :
    InvB (mallocGrowB h a sz) = true := by
  have hpre : InvB ⟨glueB h.blks.reverse ⟨sz, true, h.epiBit⟩ [], true⟩ = true := by
    rw [glueB_inv]
    simp only [InvB, Bool.and_eq_true, beq_iff_eq] at hi
    obtain ⟨⟨hadj, hbits⟩, hepi⟩ := hi
    refine ⟨⟨?_, Or.inr rfl, Or.inl rfl, rfl⟩, ⟨?_, ?_, rfl⟩, rfl⟩
    · rw [List.reverse_reverse]
      exact hadj
    · rw [List.reverse_reverse]
      exact hbits
    · rw [headAllocB_reverse]
      exact hepi
  have h2 := freeAtB_inv h.blks.reverse ⟨sz, true, h.epiBit⟩ [] true hpre
  have h3 : InvB ⟨glueB (extendAtB h sz).1 (extendAtB h sz).2.1
      (extendAtB h sz).2.2, false⟩ = true := h2
  show InvB (placeAtB (extendAtB h sz).1 (extendAtB h sz).2.1
    (extendAtB h sz).2.2 false a) = true
  exact placeAtB_inv _ _ _ false a h3 (coalesceB_focus_free _ _ _ rfl)

/-- Every reachable variant-B heap satisfies the full invariant. -/
theorem ReachB_inv : ∀ hb : HeapB, ReachB hb → InvB hb = true := by
  intro hb hr
  induction hr with
  | init sz => rfl
  | mallocFit l b r epi a _ hb2 ih => exact placeAtB_inv l b r epi a ih hb2
  | mallocGrow h a sz _ ih => exact mallocGrowB_inv h a sz ih
  | freeBlk l b r epi _ _ ih => exact freeAtB_inv l b r epi ih

/-- C1: after any complete sequence of operations (block-level models of
`mm_init`, `mm_malloc`, `mm_free` — `mm_realloc` only composes them), no
two physically adjacent blocks are both free, in both variants; the
four-case `coalesce` maintains this (in variant B jointly with the
accuracy of every header's bit 1). -/
theorem c1_no_adjacent_free :
    (∀ h : List Blk, ReachA h → noAdjFree h = true) ∧
    (∀ hb : HeapB, ReachB hb → noAdjFreeB hb.blks = true) := by
  refine ⟨ReachA_noAdj, fun hb hr => ?_⟩
  have h := ReachB_inv hb hr
  simp only [InvB, Bool.and_eq_true] at h
  exact h.1.1

/-- Concrete instance of `c1_no_adjacent_free` at the post-`mm_init`
heaps of the two variants (one 3200-byte, resp. 992-byte, free block). -/
theorem c1_no_adjacent_free_witness :
    ReachA [⟨3200, false⟩] ∧ noAdjFree [⟨3200, false⟩] = true ∧
    ReachB ⟨[⟨992, false, true⟩], false⟩ ∧
      noAdjFreeB [⟨992, false, true⟩] = true :=
  ⟨ReachA.init 3200, c1_no_adjacent_free.1 _ (ReachA.init 3200),
    ReachB.init 992, c1_no_adjacent_free.2 _ (ReachB.init 992)⟩
